import Mathlib

/-!
Verification development for the ttp-tools pattern/satisfiability engine.

The definitions below are a shallow embedding of `ttp_tools/TTP.py` and
`ttp_tools/ttp_satisfies.py`.  Python machine integers are modelled as `Nat`
(all values in scope are non-negative); Python `None` becomes `Option`;
functions that can raise return `Option`/a result inductive whose failure
constructor models the raised exception.  Python dicts and sets are modelled
as association lists and duplicate-free lists: claims only depend on
key/element membership and on emptiness, never on iteration order or hashing.
-/

namespace TTPTools

/-! ## Python-style string primitives

Helpers mirroring the Python `str` operations used by `normalise_value`
(`str.split`, `str.replace`, membership of `"::"`, `int(s)`, `int(s, 16)`,
`int(s, 0)`).  Strings are handled as `List Char`.  `int()`'s tolerance for
surrounding whitespace and underscore digit separators is not modelled; signs
are modelled only for the base-0 form (the only call site where the claims
depend on them). -/

/-- Value of a hexadecimal digit character, `none` for a non-digit. -/
def hexVal (c : Char) : Option Nat :=
  if c.isDigit then some (c.toNat - '0'.toNat)
  else if 'a' ≤ c ∧ c ≤ 'f' then some (c.toNat - 'a'.toNat + 10)
  else if 'A' ≤ c ∧ c ≤ 'F' then some (c.toNat - 'A'.toNat + 10)
  else none

/-- Parse a non-empty digit string in the given base (digits only). -/
def parseNatRadix (base : Nat) : List Char → Option Nat
  | [] => none
  | cs => go cs 0
where
  go : List Char → Nat → Option Nat
    | [], acc => some acc
    | c :: rest, acc =>
      match hexVal c with
      | some d => if d < base then go rest (acc * base + d) else none
      | none => none

/-- Python `int(s)` on an unsigned decimal digit string. -/
def pyIntDec (s : List Char) : Option Nat := parseNatRadix 10 s

/-- Python `int(s, 16)`: an optional `0x`/`0X` marker followed by hex digits. -/
def pyIntHex (s : List Char) : Option Nat :=
  match s with
  | c0 :: c1 :: rest =>
    if c0 = '0' ∧ (c1 = 'x' ∨ c1 = 'X') then parseNatRadix 16 rest
    else parseNatRadix 16 s
  | _ => parseNatRadix 16 s

/-- The no-marker decimal case of `int(s, 0)`: no leading zeros unless the
string is all zeros. -/
def pyIntDec0 (s : List Char) : Option Nat :=
  if s.head? = some '0' ∧ ¬ (s.all (· = '0')) then none
  else parseNatRadix 10 s

/-- Magnitude part of Python `int(s, 0)`: a `0x`/`0o`/`0b` marker selects the
base, otherwise the string is decimal and must not have leading zeros unless
it is all zeros. -/
def pyIntBase0Core (s : List Char) : Option Nat :=
  match s with
  | c0 :: c1 :: rest =>
    if c0 = '0' ∧ (c1 = 'x' ∨ c1 = 'X') then parseNatRadix 16 rest
    else if c0 = '0' ∧ (c1 = 'o' ∨ c1 = 'O') then parseNatRadix 8 rest
    else if c0 = '0' ∧ (c1 = 'b' ∨ c1 = 'B') then parseNatRadix 2 rest
    else pyIntDec0 s
  | _ => pyIntDec0 s

/-- Python `int(s, 0)` with an optional single sign. -/
def pyIntBase0 (s : List Char) : Option Int :=
  match s with
  | '-' :: rest => (pyIntBase0Core rest).map (fun n => -(n : Int))
  | '+' :: rest => (pyIntBase0Core rest).map (fun n => (n : Int))
  | _ => (pyIntBase0Core s).map (fun n => (n : Int))

/-- Python `s.split(sep)` for a single-character separator (keeps empties,
splitting `""` gives `[""]`). -/
def charSplit (sep : Char) : List Char → List (List Char)
  | [] => [[]]
  | c :: rest =>
    if c = sep then [] :: charSplit sep rest
    else
      match charSplit sep rest with
      | [] => [[c]]
      | h :: t => (c :: h) :: t

/-- Python `"::" in s`. -/
def hasDoubleColon : List Char → Bool
  | [] => false
  | [_] => false
  | a :: b :: rest => (a == ':' && b == ':') || hasDoubleColon (b :: rest)

/-- Python `s.replace("::", repl)`: replace every non-overlapping occurrence
of `"::"` left to right. -/
def replaceDC (repl : List Char) : List Char → List Char
  | [] => []
  | [c] => [c]
  | a :: b :: rest =>
    if a = ':' ∧ b = ':' then repl ++ replaceDC repl rest
    else a :: replaceDC repl (b :: rest)

/-! ## The value normaliser (`TTP.normalise_value`)

`normalise_value` consumes a Python value that is either an `int` or a `str`
and returns an integer, or Python `None` for "no single value" (unresolved
variable reference), or raises (`ValueError`; the one internal `assert` is
also modelled as the error result).  The embedding is called the way the
loader calls it with `ttp_object=None`: a `<name>` variable reference yields
"no single value" and the OpenFlow named-constant lookup is skipped. -/

/-- Outcome of `normalise_value`: an integer, Python `None` ("no single
value"), or a raised error. -/
inductive NRes where
  | val (i : Int)
  | noSingle
  | err
deriving DecidableEq, Repr

/-- Input to `normalise_value`: a Python `str` or `int`. -/
inductive PyVal where
  | str (s : List Char)
  | int (i : Int)
deriving DecidableEq, Repr

/-- The `VALUE_OVERRIDE` table mapping special names to fixed values. -/
def valueOverride (s : List Char) : Option Int :=
  if s = "L3 PHP".data then some 32
  else if s = "<Router_IP>".data then some 0x7f000001
  else if s = "<Router_MAC_DA>".data then some 0xf00000000001
  else none

/-- The IPv6 accumulation loop: each group is parsed base 16 (an empty group
reads as `"0"`), must fit 16 bits, and is OR-ed in at the current shift. -/
def ipv6Parts : List (List Char) → Nat → Nat → NRes
  | [], _, res => .val (res : Int)
  | p :: rest, shift, res =>
    let p' := if p = [] then ['0'] else p
    match pyIntHex p' with
    | none => .err
    | some v =>
      if v > 0xFFFF then .err
      else ipv6Parts rest (shift - 16) (res ||| (v <<< shift))

/-- The IPv4 branch: four decimal octets, each at most `0xFF`. -/
def ipv4Parts (ps : List (List Char)) : NRes :=
  match ps with
  | [a, b, c, d] =>
    match pyIntDec a, pyIntDec b, pyIntDec c, pyIntDec d with
    | some x, some y, some z, some w =>
      if (x ||| y ||| z ||| w) > 0xFF then .err
      else .val ((x <<< 24 ||| y <<< 16 ||| z <<< 8 ||| w : Nat) : Int)
    | _, _, _, _ => .err
  | _ => .err

/-- The MAC branch: the six groups are joined and parsed as one hex number. -/
def macParts (ps : List (List Char)) : NRes :=
  match pyIntHex ps.flatten with
  | some v => .val (v : Int)
  | none => .err

/-- Embedding of `TTP.normalise_value` (called with `ttp_object=None`):
override table, variable reference, IPv6, IPv4, MAC, then plain integer. -/
def normalise_value : PyVal → NRes
  | .int i => .val i
  | .str s =>
    match valueOverride s with
    | some v => .val v
    | none =>
      if s.head? = some '<' then .noSingle
      else
        let numParts := (charSplit ':' s).length
        if numParts = 8 ∨ (3 ≤ numParts ∧ numParts ≤ 9 ∧ hasDoubleColon s) then
          let expanded := replaceDC (List.replicate (10 - numParts) ':') s
          let parts := charSplit ':' expanded
          -- the source asserts the expansion yields exactly 8 groups
          if parts.length = 8 then ipv6Parts parts 112 0 else .err
        else if (charSplit '.' s).length = 4 then ipv4Parts (charSplit '.' s)
        else if (charSplit ':' s).length = 6 then macParts (charSplit ':' s)
        else if (charSplit '-' s).length = 6 then macParts (charSplit '-' s)
        else
          match pyIntBase0 s with
          | some i => .val i
          | none => .err

/-! ## The OXM field registry

The field registry lives in the external `ofequivalence` package (spec §6):
a lookup by field name returning the bit width and a unique small integer id
used to build one-bit-per-field masks.  Modelled from the spec with the
standard OpenFlow 1.3 numbering for the fields exercised by the claims. -/

/-- Field registry entries `(name, id, bit width)` for the fields used here. -/
def oxm_fields : List (String × Nat × Nat) :=
  [ ( "IN_PORT", 0, 32), ( "IN_PHY_PORT", 1, 32), ( "METADATA", 2, 64),
    ( "ETH_DST", 3, 48), ( "ETH_SRC", 4, 48), ( "ETH_TYPE", 5, 16),
    ( "VLAN_VID", 6, 13), ( "VLAN_PCP", 7, 3), ( "IP_DSCP", 8, 6),
    ( "IP_ECN", 9, 2), ( "IP_PROTO", 10, 8), ( "IPV4_SRC", 11, 32),
    ( "IPV4_DST", 12, 32), ( "TUNNEL_ID", 13, 64) ]

/-- The registry's unique id for a field name. -/
def oxm_name_to_id (f : String) : Option Nat :=
  (oxm_fields.find? (fun e => e.1 == f)).map (fun e => e.2.1)

/-- The registry's bit width for a field name. -/
def oxm_bits (f : String) : Option Nat :=
  (oxm_fields.find? (fun e => e.1 == f)).map (fun e => e.2.2)

/-- The width mask `(1 << bits) - 1` the loader derives for a known field;
`none` models the `-1` "infinitely wide" sentinel of an unknown field. -/
def widthMaskOf (f : String) : Option Nat :=
  (oxm_bits f).map (fun b => (1 <<< b) - 1)

/-! ## Match leaves (`TTP.TTPMatch` + `ttp_satisfies.TTPMatch`) -/

/-- The four match disciplines (`MATCH_TYPES`); `pfx` renders the source's
third discipline, spelled p-r-e-f-i-x there. -/
inductive MatchType where
  | exact
  | mask
  | pfx
  | all_or_exact
deriving DecidableEq, Repr

/-- Python truthiness of an optional integer: `None` and `0` are falsy. -/
def truthy : Option Nat → Bool
  | some n => n != 0
  | none => false

/-- A match leaf: field name, discipline, optional fixed value, optional
fixed mask, optional constant-bit mask/value, and the derived field-width
mask (`none` models the `-1` unknown-width sentinel). -/
structure TTPMatch where
  field_name : String
  match_type : MatchType
  value : Option Nat := none
  mask : Option Nat := none
  const_mask : Option Nat := none
  const_value : Option Nat := none
  width_mask : Option Nat := none
deriving DecidableEq, Repr

/-- Leaf with the width mask derived from the registry, as the loader does. -/
def mkLeaf (f : String) (mt : MatchType) : TTPMatch :=
  { field_name := f, match_type := mt, width_mask := widthMaskOf f }

namespace TTPMatch

/-- Embedding of `TTPMatch.satisfies_const`: with a truthy `const_mask` the
candidate mask (if any) must cover it and the masked value must equal
`const_value`. -/
def satisfies_const (m : TTPMatch) (value : Nat) (mask : Option Nat) : Bool :=
  if ! truthy m.const_mask then true
  else
    let cm := m.const_mask.getD 0
    (match mask with
     | some mc => (mc &&& cm) == cm
     | none => true) &&
    (some (cm &&& value) == m.const_value)

/-- Embedding of `TTPMatch.satisfies_mask`: a fixed mask must be matched
exactly (OR-ed with a truthy `const_mask`); an absent candidate mask stands
for the full width mask. -/
def satisfies_mask (m : TTPMatch) (mask : Option Nat) : Bool :=
  match m.mask with
  | none => true
  | some mm =>
    match mask with
    | none => m.width_mask == some mm
    | some mc =>
      if truthy m.const_mask then (m.const_mask.getD 0 ||| mm) == mc
      else mm == mc

/-- Embedding of `TTPMatch.satisfies_value`: a fixed value must agree with
the candidate value under the candidate mask (or exactly when unmasked). -/
def satisfies_value (m : TTPMatch) (value : Nat) (mask : Option Nat) : Bool :=
  match m.value with
  | none => true
  | some v =>
    match mask with
    | some mc => (v &&& mc) == (value &&& mc)
    | none => v == value

/-- The loop of `TTPMatch.is_prefix_mask`: while the highest width bit is
set, clear it and shift left; the mask is a contiguous high-order run of 1s
exactly when the loop ends at 0.  Under the loop guard (the `hb` bit is set)
the source's `mask & ~highest_bit` equals `mask - hb` on Python's unbounded
non-negative ints.  The fuel argument only bounds the iteration count; any
fuel at least the popcount of the mask gives the loop's exit value. -/
def pfxLoop (hb : Nat) : Nat → Nat → Nat
  | 0, mask => mask
  | fuel + 1, mask =>
    if hb &&& mask == hb then pfxLoop hb fuel ((mask - hb) <<< 1) else mask

/-- Embedding of `TTPMatch.is_prefix_mask` (source name spelled with the
third discipline's name): unknown width returns `True` with a warning. -/
def is_pfx_mask (m : TTPMatch) (mask : Nat) : Bool :=
  match m.width_mask with
  | none => true
  | some wm =>
    let hb := (wm + 1) >>> 1
    pfxLoop hb (mask + 1) mask == 0

/-- Embedding of `TTPMatch.satisfies`.  `none` models the raise the source
performs on the invalid combination of a fixed mask with an `exact` or
`all_or_exact` discipline; for an unknown width (`width_mask = -1`) the
source's `mask & -1 != -1` comparison is always true (a non-negative mask
never equals `-1`) and `mask & -1 in (0, -1)` holds only for `0`. -/
def satisfies (m : TTPMatch) (value : Nat) (mask : Option Nat) : Option Bool :=
  if ! m.satisfies_const value mask then some false
  else if ! m.satisfies_mask mask then some false
  else if ! m.satisfies_value value mask then some false
  else
    match m.match_type with
    | .exact =>
      if m.mask.isSome then none
      else
        match mask, m.width_mask with
        | some mc, some wm => some ((mc &&& wm) == wm)
        | some _, none => some false
        | none, _ => some true
    | .all_or_exact =>
      if m.mask.isSome then none
      else
        match mask, m.width_mask with
        | some mc, some wm => some ((mc &&& wm) == 0 || (mc &&& wm) == wm)
        | some mc, none => some (mc == 0)
        | none, _ => some true
    | .pfx =>
      match mask with
      | none => some true
      | some mc =>
        match m.width_mask with
        | some wm => some (m.is_pfx_mask (mc &&& wm))
        | none => some (m.is_pfx_mask mc)
    | .mask => some true

/-- Embedding of `TTPMatch.is_required`, with the source's branch order:
`exact` is required, `all_or_exact` is optional, then truthy `const_mask` or
truthy fixed `mask` make the leaf required, and a leaf with only a fixed
`value` (or nothing at all) is optional. -/
def is_required (m : TTPMatch) : Bool :=
  if m.match_type = .exact then true
  else if m.match_type = .all_or_exact then false
  else if truthy m.const_mask then true
  else if truthy m.mask then true
  else if m.value.isSome then false
  else false

/-- Embedding of `TTPMatch._make_masks`/`get_masks`: the leaf's one-bit
required/optional contribution.  Extension (`$`) fields contribute nothing;
for an unknown standard field the source logs and would fail the id lookup
(no claim builds one). -/
def get_masks (m : TTPMatch) : Nat × Nat :=
  match m.field_name.data with
  | '$' :: _ => (0, 0)
  | _ =>
    match oxm_name_to_id m.field_name with
    | some i => if m.is_required then (1 <<< i, 0) else (0, 1 <<< i)
    | none => (0, 0)

/-- Embedding of `TTPMatch.is_standard_field`. -/
def is_standard_field (m : TTPMatch) : Bool :=
  match m.field_name.data with
  | '$' :: _ => false
  | _ => true

end TTPMatch

/-! ## `Remaining` maps

`ttp_satisfies.Remaining` is a dict from a residual candidate to the set of
accumulated builds reaching it.  Modelled as an association list with
duplicate-free value lists; claims depend only on key/element membership,
lookups and emptiness. -/

/-- A `Remaining` map: residual keys paired with their build sets. -/
def RMap (κ β : Type) : Type := List (κ × List β)

instance (κ β : Type) [DecidableEq κ] [DecidableEq β] : DecidableEq (RMap κ β) := by
  unfold RMap; infer_instance

namespace RMap

variable {κ β : Type} [DecidableEq κ] [DecidableEq β]

/-- Set insertion on a value list. -/
def setInsert (s : List β) (b : β) : List β := if b ∈ s then s else s ++ [b]

/-- Set union on value lists (`set.update`). -/
def setUnion (s t : List β) : List β := t.foldl setInsert s

/-- Lookup the build set recorded for a residual. -/
def lookup : RMap κ β → κ → Option (List β)
  | [], _ => none
  | (k', v) :: rest, k => if k' = k then some v else lookup rest k

/-- Merge one key with a set of values (one step of `Remaining.update`):
union into an existing key, else append the key with the deduplicated set. -/
def insertVals : RMap κ β → κ → List β → RMap κ β
  | [], k, v => [(k, (v.foldl setInsert []))]
  | (k', v') :: rest, k, v =>
    if k' = k then (k', setUnion v' v) :: rest
    else (k', v') :: insertVals rest k v

/-- `Remaining.update`: merge every entry of the second map into the first. -/
def update (r other : RMap κ β) : RMap κ β :=
  other.foldl (fun acc kv => insertVals acc kv.1 kv.2) r

end RMap

/-! ## The meta-type combinator (`ttp_satisfies.TTPList._satisfies`)

The generic list search shared by match sets, instruction sets and action
lists.  `sat` is the child `_satisfies` (always called with `final=False`),
`skip` the optional `filter_`.  A `none` result models a Python exception
propagating out of the search. -/

/-- The five meta types (`META_MEMBERS`). -/
inductive MetaType where
  | all
  | one_or_more
  | zero_or_more
  | exactly_one
  | zero_or_one
deriving DecidableEq, Repr

/-- Apply one child to every `(residual, builds)` pair of a map, unioning the
child results into `acc` (the inner loop `tmp.update(item._satisfies(...))`). -/
def rApplyItem {κ β : Type} [DecidableEq κ] [DecidableEq β]
    (sat1 : κ → List β → Option (RMap κ β)) :
    RMap κ β → RMap κ β → Option (RMap κ β)
  | [], acc => some acc
  | (ii, bo) :: rest, acc =>
    (sat1 ii bo).bind fun t => rApplyItem sat1 rest (RMap.update acc t)

/-- The `all` loop: children in sequence, failing fast on an empty map. -/
def rListAll {α κ β : Type} [DecidableEq κ] [DecidableEq β]
    (sat : α → κ → List β → Option (RMap κ β)) (skip : α → Bool) :
    List α → RMap κ β → Option (RMap κ β)
  | [], remaining => some remaining
  | it :: rest, remaining =>
    if skip it then rListAll sat skip rest remaining
    else
      (rApplyItem (sat it) remaining []).bind fun tmp =>
        if tmp = [] then some [] else rListAll sat skip rest tmp

/-- The `exactly_one`/`zero_or_one` loop: every child applied to the same
initial map, results unioned. -/
def rListEach {α κ β : Type} [DecidableEq κ] [DecidableEq β]
    (sat : α → κ → List β → Option (RMap κ β)) (skip : α → Bool)
    (initial : RMap κ β) :
    List α → RMap κ β → Option (RMap κ β)
  | [], results => some results
  | it :: rest, results =>
    if skip it then rListEach sat skip initial rest results
    else
      (rApplyItem (sat it) initial []).bind fun t =>
        rListEach sat skip initial rest (RMap.update results t)

/-- Record a residual as actually consumed (`possible[i] = True`). -/
def setFlag {κ : Type} [DecidableEq κ] : List (κ × Bool) → κ → List (κ × Bool)
  | [], k => [(k, true)]
  | (k', b) :: rest, k =>
    if k' = k then (k', true) :: rest else (k', b) :: setFlag rest k

/-- Read a residual's consumed flag. -/
def getFlag {κ : Type} [DecidableEq κ] : List (κ × Bool) → κ → Bool
  | [], _ => false
  | (k', b) :: rest, k => if k' = k then b else getFlag rest k

/-- The `zero_or_more`/`one_or_more` loop: each child applied optionally to
the growing map, tracking per-residual whether anything was consumed. -/
def rListMore {α κ β : Type} [DecidableEq κ] [DecidableEq β]
    (sat : α → κ → List β → Option (RMap κ β)) (skip : α → Bool) :
    List α → RMap κ β → List (κ × Bool) → Option (RMap κ β × List (κ × Bool))
  | [], remaining, possible => some (remaining, possible)
  | it :: rest, remaining, possible =>
    if skip it then rListMore sat skip rest remaining possible
    else
      (rApplyItem (sat it) remaining []).bind fun tmp =>
        rListMore sat skip rest (RMap.update remaining tmp)
          (tmp.foldl (fun p kv => setFlag p kv.1) possible)

/-- Embedding of `TTPList._satisfies`: dispatch on the meta type from the
initial map `{item_in: set(build_out)}`. -/
def listSat {α κ β : Type} [DecidableEq κ] [DecidableEq β]
    (sat : α → κ → List β → Option (RMap κ β)) (skip : α → Bool)
    (meta : MetaType) (items : List α) (cand : κ) (build : List β) :
    Option (RMap κ β) :=
  let initial : RMap κ β := [(cand, build.foldl RMap.setInsert [])]
  match meta with
  | .all => rListAll sat skip items initial
  | .exactly_one => rListEach sat skip initial items []
  | .zero_or_one => rListEach sat skip initial items (RMap.update [] initial)
  | .zero_or_more =>
    (rListMore sat skip items initial
        (initial.map (fun kv => (kv.1, false)))).map (fun st => st.1)
  | .one_or_more =>
    (rListMore sat skip items initial
        (initial.map (fun kv => (kv.1, false)))).map
      (fun st => st.1.filter (fun kv => getFlag st.2 kv.1))

/-! ## Candidate matches and the match-set search

The candidate rule representation comes from the external `ofequivalence`
package (spec §6): an ordered field collection with membership by field name,
copy-with-add/copy-with-remove, and a one-bit-per-present-field
`required_mask`.  Modelled from the spec; equality is structural. -/

/-- A candidate match entry: `(field name, value, optional mask)`. -/
abbrev MEntry : Type := String × Nat × Option Nat

/-- A candidate `Match`: the ordered list of field entries. -/
structure Match where
  entries : List MEntry := []
deriving DecidableEq, Repr

namespace Match

/-- Modelled from the spec (§6): the candidate's required-field bitmask, one
bit per present field (unknown fields contribute nothing). -/
def required_mask (m : Match) : Nat :=
  m.entries.foldl
    (fun acc e =>
      acc ||| (match oxm_name_to_id e.1 with | some i => 1 <<< i | none => 0)) 0

/-- Membership by field name (`field_name in match_in`). -/
def get? (m : Match) (f : String) : Option (Nat × Option Nat) :=
  (m.entries.find? (fun e => e.1 == f)).map (fun e => e.2)

/-- Copy-with-remove of one field (`copy(remove=((field,),))`). -/
def removeField (m : Match) (f : String) : Match :=
  ⟨m.entries.filter (fun e => e.1 != f)⟩

end Match

/-- A partially built match (the `build_out` side): the placed entries plus
the binding trail of consumed template leaves. -/
structure BMatch where
  entries : List MEntry := []
  binding : List TTPMatch := []
deriving DecidableEq, Repr

/-- Embedding of `ttp_satisfies.TTPMatch._satisfies`: an optional leaf is
always satisfiable vacuously; a present, satisfying field is additionally
consumed, extending every build with the entry and the leaf.  `none` models
an exception raised by `satisfies`. -/
def TTPMatch.msat (m : TTPMatch) (match_in : Match) (build_out : List BMatch) :
    Option (RMap Match BMatch) :=
  let res : RMap Match BMatch :=
    if ! m.is_required then RMap.insertVals [] match_in build_out else []
  match match_in.get? m.field_name with
  | none => some res
  | some (v, mc) =>
    match m.satisfies v mc with
    | none => none
    | some false => some res
    | some true =>
      let tmp_match_in := match_in.removeField m.field_name
      let tmp_build_out := build_out.map fun b =>
        { entries := b.entries ++ [(m.field_name, v, mc)],
          binding := b.binding ++ [m] }
      some (RMap.insertVals res tmp_match_in tmp_build_out)

/-- A match-set tree: leaves are `TTPMatch`, nodes are nested `TTPMatchSet`
combinator lists tagged with a meta type. -/
inductive MatchSet where
  | leaf (m : TTPMatch)
  | node (meta : MetaType) (children : List MatchSet)
deriving Repr

mutual

/-- Decidable equality for match-set trees. -/
def MatchSet.decEq : (a b : MatchSet) → Decidable (a = b)
  | .leaf x, .leaf y =>
    if h : x = y then isTrue (by rw [h]) else isFalse (fun hc => by cases hc; exact h rfl)
  | .leaf _, .node _ _ => isFalse (fun h => MatchSet.noConfusion h)
  | .node _ _, .leaf _ => isFalse (fun h => MatchSet.noConfusion h)
  | .node m1 cs1, .node m2 cs2 =>
    if hm : m1 = m2 then
      match MatchSet.decEqList cs1 cs2 with
      | isTrue hl => isTrue (by rw [hm, hl])
      | isFalse hl => isFalse (fun hc => by cases hc; exact hl rfl)
    else isFalse (fun hc => by cases hc; exact hm rfl)

/-- Decidable equality for lists of match-set trees. -/
def MatchSet.decEqList : (a b : List MatchSet) → Decidable (a = b)
  | [], [] => isTrue rfl
  | [], _ :: _ => isFalse (fun h => List.noConfusion h)
  | _ :: _, [] => isFalse (fun h => List.noConfusion h)
  | a :: as, b :: bs =>
    match MatchSet.decEq a b with
    | isTrue h1 =>
      match MatchSet.decEqList as bs with
      | isTrue h2 => isTrue (by rw [h1, h2])
      | isFalse h2 => isFalse (fun hc => by cases hc; exact h2 rfl)
    | isFalse h1 => isFalse (fun hc => by cases hc; exact h1 rfl)

end

instance : DecidableEq MatchSet := MatchSet.decEq

/-- Python's `o & ~r` on unbounded non-negative ints: clear from `o` every
bit set in `r`.  Written as `o ^^^ (o &&& r)` (the cleared bits are a subset
of `o`, so the two are equal). -/
def clearBits (o r : Nat) : Nat := o ^^^ (o &&& r)

/-- The mask folds applied by `TTPMatchSet._make_masks` to the children's
`(required, optional)` pairs: per meta type fold the children's masks, then
clear required bits out of optional (`optional_mask &= ~required_mask`).
The source asserts the `one_or_more`/`exactly_one` case is non-empty; the
`0` returned here for an empty child list is never exercised. -/
def maskFold (meta : MetaType) (ms : List (Nat × Nat)) : Nat × Nat :=
  let reqs := ms.map (fun p => p.1)
  let opts := ms.map (fun p => p.2)
  let rq : Nat :=
    match meta with
    | .all => reqs.foldl (· ||| ·) 0
    | .one_or_more | .exactly_one =>
      (match reqs with | [] => 0 | h :: t => t.foldl (· &&& ·) h)
    | .zero_or_more | .zero_or_one => 0
  let op : Nat :=
    match meta with
    | .all => opts.foldl (· ||| ·) 0
    | _ => reqs.foldl (· ||| ·) 0 ||| opts.foldl (· ||| ·) 0
  (rq, clearBits op rq)

mutual

/-- Embedding of `TTPMatchSet._make_masks`/`get_masks`: fold the children's
masks by meta type. -/
def MatchSet.get_masks : MatchSet → Nat × Nat
  | .leaf m => m.get_masks
  | .node meta cs => maskFold meta (MatchSet.get_masksL cs)

/-- The children's `(required, optional)` mask pairs in order. -/
def MatchSet.get_masksL : List MatchSet → List (Nat × Nat)
  | [] => []
  | c :: rest => MatchSet.get_masks c :: MatchSet.get_masksL rest

end

mutual

/-- Height of a match-set tree, used as recursion fuel for the search. -/
def MatchSet.depth : MatchSet → Nat
  | .leaf _ => 1
  | .node _ cs => MatchSet.depthL cs + 1

/-- Maximum height of a list of match-set trees. -/
def MatchSet.depthL : List MatchSet → Nat
  | [] => 0
  | c :: rest => max (MatchSet.depth c) (MatchSet.depthL rest)

end

/-- The `filter_` of `TTPMatchSet._satisfies`: skip non-standard (`$`) match
leaf fields. -/
def msSkip : MatchSet → Bool
  | .leaf m => ! m.is_standard_field
  | .node _ _ => false

/-- Embedding of `TTPMatchSet._satisfies` (with `TTPMatch._satisfies` at the
leaves): the bitmask pruning checks, then the meta-type list search, then in
final mode only fully consumed residuals survive.  The fuel argument only
drives the recursion; any fuel at least the tree's depth (as supplied by
`msSat`) never reaches the exhausted case. -/
def msSatF : Nat → MatchSet → Match → List BMatch → Bool →
    Option (RMap Match BMatch)
  | 0, _, _, _, _ => none
  | _ + 1, .leaf m, cand, build, _ => m.msat cand build
  | fuel + 1, .node meta cs, cand, build, final =>
    let masks := MatchSet.get_masks (.node meta cs)
    if (cand.required_mask &&& masks.1) ≠ masks.1 then some []
    else if final ∧ (cand.required_mask &&& (masks.2 ||| masks.1)) ≠ cand.required_mask then
      some []
    else
      (listSat (fun c ii bo => msSatF fuel c ii bo false)
          msSkip meta cs cand build).map
        fun remaining =>
          if final then remaining.filter (fun kv => kv.1.entries.isEmpty)
          else remaining

/-- `TTPMatchSet._satisfies` with sufficient fuel. -/
def msSat (ms : MatchSet) (cand : Match) (build : List BMatch) (final : Bool) :
    Option (RMap Match BMatch) :=
  msSatF ms.depth ms cand build final

/-- Embedding of `TTPMatchSet.satisfies`: at least one residual survives the
final-mode search started from an empty build (`set(Match())` is empty). -/
def MatchSet.satisfies (ms : MatchSet) (m : Match) : Option Bool :=
  (msSat ms m [] true).map (fun r => ! r.isEmpty)

/-! ## The table graph (`TableTypePattern.__init__` linking and
`TTPTable.get_reachable`)

GOTO edges are recorded by table name in the first pass and resolved in the
second; tables are modelled by their numbers (name resolution abstracted
away).  An edge whose destination number is not strictly greater than its
source number is logged and dropped, everything else is written into the
`tos`/`froms` adjacency maps. -/

/-- The `froms` adjacency written by the second linking pass: predecessors
of table `t`, keeping only edges that strictly increase the table number
(one dict key per predecessor table). -/
def froms (edges : List (Nat × Nat)) (t : Nat) : List Nat :=
  ((edges.filter (fun e => e.1 < e.2 ∧ e.2 = t)).map (fun e => e.1)).dedup

/-- Embedding of `TTPTable.get_reachable`: table 0 reaches itself by the
trivial path; any other table extends each predecessor's paths by its own
number.  The fuel argument only drives the recursion: every linked
predecessor has a strictly smaller number, so fuel at least the table number
(as supplied by `get_reachable`) never reaches the exhausted case. -/
def get_reachableF (edges : List (Nat × Nat)) : Nat → Nat → List (List Nat)
  | _, 0 => [[0]]
  | 0, _ => []
  | fuel + 1, t =>
    (froms edges t).flatMap
      (fun f => (get_reachableF edges fuel f).map (fun p => p ++ [t]))

/-- `TTPTable.get_reachable` with sufficient fuel. -/
def get_reachable (edges : List (Nat × Nat)) (t : Nat) : List (List Nat) :=
  get_reachableF edges t t

/-! ## Concrete instances used by the claims -/

/-- Field name constant. -/
def fVLAN : String := "VLAN_VID"

/-- Field name constant. -/
def fINP : String := "IN_PORT"

/-- Field name constant. -/
def fIPS : String := "IPV4_SRC"

/-- Field name constant. -/
def fIPD : String := "IPV4_DST"

/-- Candidate entry on `VLAN_VID` (exact, no mask). -/
def eVlan : MEntry := (fVLAN, 1, none)

/-- Candidate entry on `IN_PORT` (exact, no mask). -/
def eInp : MEntry := (fINP, 2, none)

/-- Candidate entry on `IPV4_SRC` (exact, no mask). -/
def eIps : MEntry := (fIPS, 45, none)

/-- Candidate entry on the foreign field `IPV4_DST`. -/
def eIpd : MEntry := (fIPD, 7, none)

/-- Candidate match from a list of entries. -/
def mkCand (es : List MEntry) : Match := ⟨es⟩

/-- The three exact leaves on VLAN_VID, IN_PORT and IPV4_SRC. -/
def c1_children : List MatchSet :=
  [.leaf (mkLeaf fVLAN .exact), .leaf (mkLeaf fINP .exact),
   .leaf (mkLeaf fIPS .exact)]

/-- Require-all match set over exact leaves on VLAN_VID, IN_PORT, IPV4_SRC. -/
def c1_all : MatchSet := .node .all c1_children

/-- One-or-more match set over the same three exact leaves. -/
def c1_oom : MatchSet := .node .one_or_more c1_children

/-- The exact-discipline `IN_PORT` leaf of claim C4. -/
def c4_leaf : TTPMatch := mkLeaf fINP .exact

/-- A require-all match set holding just the exact `IN_PORT` leaf. -/
def c4_set : MatchSet := .node .all [.leaf c4_leaf]

/-- The plain prefix-discipline 32-bit leaf of claim C5. -/
def c5_leaf : TTPMatch := mkLeaf fIPS .pfx

/-- A prefix-discipline leaf carrying a low constant bit
(`const_mask = const_value = 1`). -/
def c5c_leaf : TTPMatch :=
  { mkLeaf fIPS .pfx with const_mask := some 1, const_value := some 1 }

/-- Spec-side predicate (follows the claim's words): `x` is a contiguous
high-order run of 1s within `bits` bits, the empty and the full run
included. -/
def specHighRun (bits x : Nat) : Prop :=
  ∃ r, r ≤ bits ∧ x = 2 ^ bits - 2 ^ (bits - r)

/-- An `all_or_exact` leaf carrying a non-zero constant bitmask: the overlap
case on which claim C6's two clauses disagree. -/
def c6_leaf : TTPMatch :=
  { mkLeaf fVLAN .all_or_exact with
      const_mask := some 0x1000
      const_value := some 0x1000 }

/-- Join string parts with a single separator character (spec-side
constructor of the literal families quantified over by claim C9). -/
def joinSep (c : Char) : List (List Char) → List Char
  | [] => []
  | [p] => p
  | p :: rest => p ++ c :: joinSep c rest

/-- An optional (`all_or_exact`) `IN_PORT` leaf used to witness claim C10. -/
def c10_leaf : TTPMatch := mkLeaf fINP .all_or_exact

/-- A one-field candidate used to witness claim C10. -/
def c10_cand : Match := mkCand [(fINP, 5, none)]

/-- A singleton build set used to witness claim C10. -/
def c10_builds : List BMatch := [⟨[], []⟩]

/-- The residual map produced by `c10_leaf` on `c10_cand`/`c10_builds`. -/
def c10_res : RMap Match BMatch :=
  [(c10_cand, c10_builds), (mkCand [], [⟨[(fINP, 5, none)], [c10_leaf]⟩])]

/-! ## Flow-level machinery (claim C3)

Concrete actions, instructions and rules follow the candidate-rule
representation of the external `ofequivalence` package (spec §6): ordered
collections with copy-with-add/copy-with-remove, `goto_table` and
`clear_actions` slots and `priority`/`table`/`cookie`.  Template actions and
instructions embed `ttp_satisfies.TTPAction`/`TTPInstruction`/`TTPFlow`;
`GROUP` actions and nested action lists are outside the embedded universe. -/

/-- A concrete action argument: none, an `OUTPUT` port, or a `SET_FIELD`
`(field, value)` pair. -/
inductive AArg where
  | anone
  | aport (p : Nat)
  | afield (f : String) (v : Nat)
deriving DecidableEq, Repr

/-- A concrete action `(name, argument)`. -/
abbrev CAction : Type := String × AArg

/-- The no-argument action kinds asserted to carry `None`. -/
def ttlKinds : List String :=
  [ "COPY_TTL_OUT", "COPY_TTL_IN", "POP_VLAN", "DEC_MPLS_TTL",
    "DEC_NW_TTL", "POP_PBB"]

/-- A template action (`TTPAction`): the action name, the optional required
integer `OUTPUT` port (`none` models a non-integer port, a wildcard) and the
optional `SET_FIELD` field name. -/
structure TAction where
  action : String
  port : Option Nat := none
  field : Option String := none
deriving DecidableEq, Repr

/-- A built concrete action list plus its binding trail (an `ActionList`
with its `binding` attribute). -/
structure BActs where
  acts : List CAction := []
  binding : List TAction := []
deriving DecidableEq, Repr

/-- One step of the first-kind-compatible scan shared by
`TTPAction._satisfies` and `TTPAction.apply`: skip to the next candidate
action, consume this one, or raise (a `GROUP` template, a no-argument kind
carrying an argument, or a `SET_FIELD` argument that is not a pair). -/
inductive AStep where
  | skip
  | consume
  | err
deriving DecidableEq, Repr

/-- The per-candidate-action decision of the `TTPAction` scan loops. -/
def TAction.step (a : TAction) (act : CAction) : AStep :=
  if a.action = "GROUP" then .err
  else if a.action = act.1 then
    if act.1 ∈ ttlKinds then
      match act.2 with
      | .anone => .consume
      | _ => .err
    else if act.1 = "SET_FIELD" then
      match act.2 with
      | .afield f _ => if a.field = some f then .consume else .skip
      | _ => .err
    else if act.1 = "OUTPUT" then
      match a.port, act.2 with
      | none, _ => .consume
      | some p, .aport q => if p = q then .consume else .skip
      | some _, _ => .skip
    else .consume
  else .skip

/-- The scan itself: the first compatible action and the list with it
removed (`actions.copy(remove=(action,))` / `actions_in.remove(action)`
remove the first equal element, which is the found one), `none` when the
loop falls through; the outer `Option` models a raised exception. -/
def TAction.scan (a : TAction) : List CAction →
    Option (Option (CAction × List CAction))
  | [] => some none
  | act :: rest =>
    match a.step act with
    | .err => none
    | .consume => some (some (act, rest))
    | .skip => (scan a rest).map (·.map (fun pr => (pr.1, act :: pr.2)))

/-- `TTPAction._satisfies` on a single build: the
`$ALLOW_VLAN_TRANSLATION` special case is vacuous, otherwise the first
compatible action is consumed into the build and the binding, and an
incompatible list yields the empty map. -/
def TAction.asat1 (a : TAction) (acts : List CAction) (b : BActs) :
    Option (RMap (List CAction) BActs) :=
  if a.action = "SET_FIELD" ∧ a.field = some ( "$ALLOW_VLAN_TRANSLATION") then
    some [(acts, [b])]
  else
    (a.scan acts).map fun found =>
      match found with
      | none => []
      | some (act, rest) =>
        [(rest, [⟨b.acts ++ [act], b.binding ++ [a]⟩])]

/-- `TTPAction._satisfies` on a set of builds: fold the single-build results
into one map (`r.update(self._satisfies(actions, i, final))`). -/
def TAction.asat (a : TAction) (acts : List CAction) (builds : List BActs) :
    Option (RMap (List CAction) BActs) :=
  builds.foldl
    (fun acc b => acc.bind fun r => (a.asat1 acts b).map (RMap.update r))
    (some [])

/-- `TTPAction.apply`: consume the first compatible action of `acts` into
`build`; a fall-through of the loop is a failed assertion. -/
def TAction.appl (a : TAction) (acts : List CAction) (build : List CAction) :
    Option (List CAction × List CAction) :=
  (a.scan acts).bind fun found =>
    match found with
    | none => none
    | some (act, rest) => some (rest, build ++ [act])

/-- `TTPActionList.apply`: check the model list and its binding have equal
length, then replay each bound template action against the (threaded)
candidate list. -/
def alApply (model : BActs) : List CAction → List CAction →
    Option (List CAction × List CAction) :=
  let rec go : List TAction → List CAction → List CAction →
      Option (List CAction × List CAction)
    | [], acts, build => some (acts, build)
    | a :: rest, acts, build =>
      (a.appl acts build).bind fun pr => go rest pr.1 pr.2
  fun acts build =>
    if model.acts.length = model.binding.length then go model.binding acts build
    else none

/-- A template instruction (`TTPInstruction`): `GOTO_TABLE` carries the
resolved target table number (`self.ttp.find_table(self.table).number`),
`APPLY_ACTIONS`/`WRITE_ACTIONS` carry their action list with its meta type,
plus `METER` and `CLEAR_ACTIONS`. -/
inductive TInstr where
  | goto (tableNumber : Nat)
  | applyA (meta : MetaType) (acts : List TAction)
  | writeA (meta : MetaType) (acts : List TAction)
  | meter
  | clear
deriving DecidableEq, Repr

/-- A concrete `Instructions` value (spec §6). -/
structure CInstrs where
  goto_table : Option Nat := none
  clear_actions : Option Bool := none
  apply_actions : List CAction := []
  write_actions : List CAction := []
deriving DecidableEq, Repr

/-- A built `Instructions` with the binding trails: its own instruction
binding plus the two action-list builds. -/
structure BInstrs where
  goto_table : Option Nat := none
  clear_actions : Option Bool := none
  apply_actions : BActs := {}
  write_actions : BActs := {}
  binding : List TInstr := []
deriving DecidableEq, Repr

/-- `Instructions.empty()` (spec §6): no goto, no clear, no actions. -/
def CInstrs.isEmptyI (i : CInstrs) : Bool :=
  i.goto_table.isNone && i.clear_actions.isNone &&
    i.apply_actions.isEmpty && i.write_actions.isEmpty

/-- `TTPInstruction._satisfies` on a single build. -/
def TInstr.isat1 : TInstr → CInstrs → BInstrs → Option (RMap CInstrs BInstrs)
  | .goto n, instrs, b =>
    if b.goto_table ≠ none then none
    else
      some [({ instrs with goto_table := none },
        [{ b with
           goto_table := some n
           binding := b.binding ++ [.goto n] }])]
  | .applyA meta acts, instrs, b =>
    (listSat TAction.asat (fun _ => false) meta acts
        (instrs.apply_actions ++ instrs.write_actions)
        [b.apply_actions]).map fun ret =>
      ret.foldl (fun racc kv =>
        let cpy : CInstrs := { instrs with
          apply_actions := instrs.apply_actions.filter (· ∈ kv.1)
          write_actions := instrs.write_actions.filter (· ∈ kv.1) }
        kv.2.foldl (fun racc v =>
          RMap.insertVals racc cpy [{ b with apply_actions := v }]) racc) []
  | .writeA meta acts, instrs, b =>
    (listSat TAction.asat (fun _ => false) meta acts
        (instrs.apply_actions ++ instrs.write_actions)
        [b.write_actions]).map fun ret =>
      ret.foldl (fun racc kv =>
        let cpy : CInstrs := { instrs with
          apply_actions := instrs.apply_actions.filter (· ∈ kv.1)
          write_actions := instrs.write_actions.filter (· ∈ kv.1) }
        kv.2.foldl (fun racc v =>
          RMap.insertVals racc cpy [{ b with write_actions := v }]) racc) []
  | .meter, instrs, b => some [(instrs, [b])]
  | .clear, instrs, b =>
    if b.clear_actions ≠ none then none
    else
      some [({ instrs with clear_actions := none },
        [{ b with
           clear_actions := some true
           binding := b.binding ++ [.clear] }])]

/-- `TTPInstruction._satisfies` on a set of builds. -/
def TInstr.isat (i : TInstr) (instrs : CInstrs) (builds : List BInstrs) :
    Option (RMap CInstrs BInstrs) :=
  builds.foldl
    (fun acc b => acc.bind fun r => (i.isat1 instrs b).map (RMap.update r))
    (some [])

/-- A candidate rule (spec §6; also the shape of the placed output rule).
The `match` attribute is named `rmatch` (`match` is reserved). -/
structure CRule where
  priority : Nat := 0
  cookie : Option Nat := none
  table : Nat := 0
  rmatch : Match := {}
  instrs : CInstrs := {}
deriving DecidableEq, Repr

/-- A model rule produced by the flow search: the fixed placement data plus
the bound match and instructions. -/
structure BRule where
  priority : Nat := 0
  cookie : Option Nat := none
  table : Nat := 0
  rmatch : BMatch := {}
  instrs : BInstrs := {}
deriving DecidableEq, Repr

/-- A flow template (`TTPFlow`): optional fixed priority, the parent
table's number, the match set and the instruction set. -/
structure TFlow where
  priority : Option Nat := none
  tableNumber : Nat := 0
  matchSet : MatchSet
  instrMeta : MetaType := .all
  instrs : List TInstr := []

/-- `TTPFlow._satisfies` with `final=True`: the final match-set and
instruction-set results (each on its singleton empty build), crossed into a
map from narrowed candidate rules to placed model rules. -/
def flowSat (f : TFlow) (flow : CRule) : Option (RMap CRule BRule) :=
  let retPriority := match f.priority with
    | some p => p
    | none => flow.priority
  (msSat f.matchSet flow.rmatch [{}] true).bind fun resM =>
  if resM = [] then some [] else
  ((listSat TInstr.isat (fun _ => false) f.instrMeta f.instrs flow.instrs
      [{}]).map (fun r => r.filter (fun kv => kv.1.isEmptyI))).bind fun resI =>
  if resI = [] then some [] else
  some (resM.foldl (fun acc mkv =>
    mkv.2.foldl (fun acc mv =>
      resI.foldl (fun acc ikv =>
        ikv.2.foldl (fun acc iv =>
          RMap.insertVals acc
            { flow with
              rmatch := mkv.1
              instrs := ikv.1 }
            [{ priority := retPriority
               table := f.tableNumber
               rmatch := mv
               instrs := iv }]) acc) acc) acc) [])

/-- `TTPMatch.apply`: look the leaf's field up in the candidate (a missing
field is a `KeyError`), assert it satisfies the leaf, then move it to the
built match. -/
def leafApply (m : TTPMatch) (cand : Match) (build : List MEntry) :
    Option (Match × List MEntry) :=
  match cand.get? m.field_name with
  | none => none
  | some (v, mc) =>
    match m.satisfies v mc with
    | some true =>
      some (cand.removeField m.field_name, build ++ [(m.field_name, v, mc)])
    | _ => none

/-- The match-binding replay loop of `TTPFlow.apply`. -/
def matchReplay : List TTPMatch → Match → List MEntry →
    Option (Match × List MEntry)
  | [], cand, build => some (cand, build)
  | b :: bs, cand, build =>
    (leafApply b cand build).bind fun pr => matchReplay bs pr.1 pr.2

/-- `TTPInstruction.apply`: only `GOTO_TABLE` and `CLEAR_ACTIONS` are
replayable (the others raise; they are never recorded in an instruction
binding). -/
def TInstr.appl (i : TInstr) (inst_in : CInstrs) (b : CInstrs) :
    Option (CInstrs × CInstrs) :=
  match i with
  | .goto n =>
    if b.goto_table ≠ none then none
    else some ({ inst_in with goto_table := none },
      { b with goto_table := some n })
  | .clear =>
    if inst_in.clear_actions = some true then
      some ({ inst_in with clear_actions := some false },
        { b with clear_actions := some true })
    else none
  | _ => none

/-- The instruction-binding replay loop of `TTPFlow.apply`. -/
def instrReplay : List TInstr → CInstrs → CInstrs →
    Option (CInstrs × CInstrs)
  | [], i, b => some (i, b)
  | t :: ts, i, b => (t.appl i b).bind fun pr => instrReplay ts pr.1 pr.2

/-- `TTPFlow.apply`: replay the model's match binding, instruction binding
and the two action-list bindings against `flow_in` (whose `clear_actions`
is first overwritten from the model), and assemble the placed rule with the
model's priority, cookie and table.  `full_actions()` is the concatenation
of apply and write actions (spec §6), threaded through both `alApply`
calls. -/
def flowApply (flow_in : CRule) (model : BRule) : Option CRule :=
  let flow_copy := { flow_in with
    instrs := { flow_in.instrs with
      clear_actions := model.instrs.clear_actions } }
  (matchReplay model.rmatch.binding flow_copy.rmatch []).bind fun mres =>
  (instrReplay model.instrs.binding flow_copy.instrs {}).bind fun ires =>
  let merged := ires.1.apply_actions ++ ires.1.write_actions
  (alApply model.instrs.apply_actions merged []).bind fun papply =>
  (alApply model.instrs.write_actions papply.1 []).map fun pwrite =>
  { priority := model.priority
    cookie := model.cookie
    table := model.table
    rmatch := ⟨mres.2⟩
    instrs := { ires.2 with
      apply_actions := papply.2
      write_actions := pwrite.2 } }

def c3_leafV : TTPMatch := { mkLeaf fIPS .all_or_exact with value := some 16 }

def c3_leafF : TTPMatch := mkLeaf fINP .mask

def c3_tflow : TFlow :=
  { priority := some 100
    tableNumber := 1
    matchSet := .node .all [.leaf c3_leafV, .leaf c3_leafF]
    instrMeta := .all
    instrs := [.goto 2] }

def c3_ruleA : CRule :=
  { priority := 50
    cookie := some 7
    rmatch := mkCand [(fIPS, 16, none), (fINP, 5, none)]
    instrs := { goto_table := some 2 } }

def c3_ruleB : CRule :=
  { priority := 50
    cookie := some 7
    rmatch := mkCand [(fIPS, 16, none), (fINP, 9, none)]
    instrs := { goto_table := some 2 } }

def c3_ruleBbad : CRule :=
  { priority := 50
    cookie := some 7
    rmatch := mkCand [(fIPS, 17, none), (fINP, 5, none)]
    instrs := { goto_table := some 2 } }


def c3_key : CRule :=
  { priority := 50
    cookie := some 7
    rmatch := mkCand []
    instrs := {} }

def c3_model : BRule :=
  { priority := 100
    table := 1
    rmatch := { entries := [(fIPS, 16, none), (fINP, 5, none)]
                binding := [c3_leafV, c3_leafF] }
    instrs := { goto_table := some 2
                binding := [.goto 2] } }


def c3_out : CRule :=
  { priority := 100
    table := 1
    rmatch := mkCand [(fIPS, 16, none), (fINP, 9, none)]
    instrs := { goto_table := some 2 } }

/-- Spec-side description of the match-binding replay of claim C3: leaf by
leaf, the candidate supplies the concrete `(value, mask)` of the leaf's
field, which must satisfy the leaf; the field is consumed and the placed
entry carries the candidate's concrete values. -/
inductive ReplaySpec : List TTPMatch → Match → Match → List MEntry → Prop
  | nil (cand : Match) : ReplaySpec [] cand cand []
  | cons (b : TTPMatch) (bs : List TTPMatch) (cand res : Match)
      (v : Nat) (mc : Option Nat) (es : List MEntry)
      (hget : cand.get? b.field_name = some (v, mc))
      (hsat : b.satisfies v mc = some true)
      (hrest : ReplaySpec bs (cand.removeField b.field_name) res es) :
      ReplaySpec (b :: bs) cand res ((b.field_name, v, mc) :: es)

/-! # Theorems -/

/-- C1: the require-all match set over exact leaves on VLAN_VID, IN_PORT and
IPV4_SRC is satisfied by the full triple in every order, by no proper subset
and by no candidate that additionally carries the foreign field IPV4_DST;
the one-or-more set over the same leaves is satisfied by every non-empty
subset (any order), rejected for the empty candidate and for any subset plus
the unrelated field. -/
theorem C1_matchset_combinators :
    (c1_all.satisfies (mkCand [eVlan, eInp, eIps]) = some true ∧
     c1_all.satisfies (mkCand [eVlan, eIps, eInp]) = some true ∧
     c1_all.satisfies (mkCand [eInp, eVlan, eIps]) = some true ∧
     c1_all.satisfies (mkCand [eInp, eIps, eVlan]) = some true ∧
     c1_all.satisfies (mkCand [eIps, eVlan, eInp]) = some true ∧
     c1_all.satisfies (mkCand [eIps, eInp, eVlan]) = some true) ∧
    (c1_all.satisfies (mkCand []) = some false ∧
     c1_all.satisfies (mkCand [eVlan]) = some false ∧
     c1_all.satisfies (mkCand [eInp]) = some false ∧
     c1_all.satisfies (mkCand [eIps]) = some false ∧
     c1_all.satisfies (mkCand [eVlan, eInp]) = some false ∧
     c1_all.satisfies (mkCand [eInp, eVlan]) = some false ∧
     c1_all.satisfies (mkCand [eVlan, eIps]) = some false ∧
     c1_all.satisfies (mkCand [eIps, eVlan]) = some false ∧
     c1_all.satisfies (mkCand [eInp, eIps]) = some false ∧
     c1_all.satisfies (mkCand [eIps, eInp]) = some false) ∧
    (c1_all.satisfies (mkCand [eVlan, eInp, eIps, eIpd]) = some false ∧
     c1_all.satisfies (mkCand [eIpd, eVlan, eInp, eIps]) = some false) ∧
    (c1_oom.satisfies (mkCand [eVlan]) = some true ∧
     c1_oom.satisfies (mkCand [eInp]) = some true ∧
     c1_oom.satisfies (mkCand [eIps]) = some true ∧
     c1_oom.satisfies (mkCand [eVlan, eInp]) = some true ∧
     c1_oom.satisfies (mkCand [eInp, eVlan]) = some true ∧
     c1_oom.satisfies (mkCand [eVlan, eIps]) = some true ∧
     c1_oom.satisfies (mkCand [eIps, eVlan]) = some true ∧
     c1_oom.satisfies (mkCand [eInp, eIps]) = some true ∧
     c1_oom.satisfies (mkCand [eIps, eInp]) = some true ∧
     c1_oom.satisfies (mkCand [eVlan, eInp, eIps]) = some true ∧
     c1_oom.satisfies (mkCand [eIps, eInp, eVlan]) = some true) ∧
    (c1_oom.satisfies (mkCand []) = some false ∧
     c1_oom.satisfies (mkCand [eIpd]) = some false ∧
     c1_oom.satisfies (mkCand [eVlan, eIpd]) = some false ∧
     c1_oom.satisfies (mkCand [eVlan, eInp, eIpd]) = some false ∧
     c1_oom.satisfies (mkCand [eVlan, eInp, eIps, eIpd]) = some false) := by
  decide

/-- C4: the exact-discipline `IN_PORT` leaf accepts a candidate `(v, mask)`
exactly when the candidate mask covers the field's 32-bit width mask (so the
width-truncated candidate mask equals the full width mask), an absent mask
counting as fully masked; in particular `(1, None)` and
`(12, 0xffffffff)` are accepted and `(1, 0x3fab)` is rejected, and a
require-all match set holding this required leaf rejects the empty
candidate. -/
theorem C4_exact_leaf :
    (∀ v, c4_leaf.satisfies v none = some true) ∧
    (∀ v m, c4_leaf.satisfies v (some m) =
      some ((m &&& 0xffffffff) == 0xffffffff)) ∧
    c4_leaf.satisfies 1 none = some true ∧
    c4_leaf.satisfies 12 (some 0xffffffff) = some true ∧
    c4_leaf.satisfies 1 (some 0x3fab) = some false ∧
    c4_set.satisfies (mkCand []) = some false := by
  refine ⟨fun v => rfl, fun v m => rfl, by decide, by decide, by decide, by decide⟩

/-- C6 counterexample: an `all_or_exact` leaf carrying the non-zero constant
mask `0x1000` is reported optional, refuting the claim that `is_required`
returns `True` exactly when the discipline is exact or the leaf carries a
non-zero `const_mask` or a non-zero fixed mask. -/
theorem C6_counterexample :
    c6_leaf.is_required = false ∧
    c6_leaf.match_type ≠ .exact ∧
    truthy c6_leaf.const_mask = true := by
  decide

/-- C6 amended: `is_required` returns `True` exactly when the discipline is
`exact`, or the discipline is neither `exact` nor `all_or_exact` and the
leaf carries a truthy `const_mask` or a truthy fixed `mask`; `all_or_exact`
is always optional (its check precedes the constant/fixed-mask checks), and
a fixed value alone never makes a leaf required. -/
theorem C6_is_required_characterisation (m : TTPMatch) :
    m.is_required = true ↔
      (m.match_type = .exact ∨
        (m.match_type ≠ .exact ∧ m.match_type ≠ .all_or_exact ∧
          (truthy m.const_mask = true ∨ truthy m.mask = true))) := by
  unfold TTPMatch.is_required
  rcases m with ⟨f, mt, v, mk, cm, cv, wm⟩
  cases mt <;> cases hc : truthy cm <;> cases hm : truthy mk <;> simp_all

/-- C6 amended, witness. -/
theorem C6_is_required_witness :
    (mkLeaf fINP .exact).is_required = true ↔
      ((mkLeaf fINP .exact).match_type = .exact ∨
        ((mkLeaf fINP .exact).match_type ≠ .exact ∧
          (mkLeaf fINP .exact).match_type ≠ .all_or_exact ∧
          (truthy (mkLeaf fINP .exact).const_mask = true ∨
            truthy (mkLeaf fINP .exact).mask = true))) :=
  C6_is_required_characterisation (mkLeaf fINP .exact)

/-- C8: the value normaliser maps the canonical literal forms to their
integer values, equivalent spellings agree (`::`-abbreviated vs explicit
IPv6, hyphen vs colon MAC), and an integer input is returned unchanged. -/
theorem C8_normalise_canonical :
    normalise_value (.str ( "244.7.5.8").data) = .val 0xF4070508 ∧
    normalise_value (.str ( "bade::ca54:5:4:ffff:4:9").data) =
      normalise_value (.str ( "bade:0:ca54:5:4:ffff:4:9").data) ∧
    normalise_value (.str ( "bade::ca54:5:4:ffff:4:9").data) =
      .val 0xbade0000ca5400050004ffff00040009 ∧
    normalise_value (.str ( "f5-88-24-a1-b6-ff").data) =
      normalise_value (.str ( "f5:88:24:a1:b6:ff").data) ∧
    normalise_value (.str ( "f5-88-24-a1-b6-ff").data) = .val 0xf58824a1b6ff ∧
    ∀ i : Int, normalise_value (.int i) = .val i := by
  exact ⟨by decide, by decide, by decide, by decide, by decide, fun i => rfl⟩

/-- The children's mask list is the map of `get_masks` over the children. -/
theorem get_masksL_eq_map (cs : List MatchSet) :
    MatchSet.get_masksL cs = cs.map MatchSet.get_masks := by
  induction cs with
  | nil => rfl
  | cons c rest ih => simp [MatchSet.get_masksL, ih]

/-- Bit-level description of `clearBits`. -/
theorem clearBits_testBit (o r k : Nat) :
    (clearBits o r).testBit k = (o.testBit k && ! r.testBit k) := by
  simp only [clearBits, Nat.testBit_xor, Nat.testBit_land]
  cases o.testBit k <;> cases r.testBit k <;> rfl

/-- Cleared bits never overlap the mask they were cleared against. -/
theorem land_clearBits_self (r o : Nat) : r &&& clearBits o r = 0 := by
  apply Nat.eq_of_testBit_eq
  intro k
  simp only [Nat.testBit_land, clearBits_testBit, Nat.zero_testBit]
  cases r.testBit k <;> cases o.testBit k <;> rfl

/-- Clearing against `0` changes nothing. -/
theorem clearBits_zero (o : Nat) : clearBits o 0 = o := by
  simp [clearBits]

/-- C2: every match-set combinator node derives its `(required, optional)`
mask pair from the children: for `all`, required is the OR of the children's
required bits and optional the OR of their optional bits; for
`one_or_more`/`exactly_one` (non-empty), required is the AND of the
children's required bits and optional the OR of everything else; for
`zero_or_more`/`zero_or_one` required is `0`; in every case the required
bits are cleared out of optional so the two masks never share a bit; and a
candidate whose required-field bitmask does not cover the node's required
mask is rejected with the empty result before the recursive search starts. -/
theorem C2_masks_and_pruning :
    (∀ cs : List MatchSet,
      MatchSet.get_masks (.node .all cs) =
        ((cs.map (fun c => c.get_masks.1)).foldl (· ||| ·) 0,
         clearBits ((cs.map (fun c => c.get_masks.2)).foldl (· ||| ·) 0)
           ((cs.map (fun c => c.get_masks.1)).foldl (· ||| ·) 0))) ∧
    (∀ (meta : MetaType) (c0 : MatchSet) (cs : List MatchSet),
      meta = .one_or_more ∨ meta = .exactly_one →
      MatchSet.get_masks (.node meta (c0 :: cs)) =
        ((cs.map (fun c => c.get_masks.1)).foldl (· &&& ·) c0.get_masks.1,
         clearBits
           (((c0 :: cs).map (fun c => c.get_masks.1)).foldl (· ||| ·) 0 |||
             ((c0 :: cs).map (fun c => c.get_masks.2)).foldl (· ||| ·) 0)
           ((cs.map (fun c => c.get_masks.1)).foldl (· &&& ·) c0.get_masks.1))) ∧
    (∀ (meta : MetaType) (cs : List MatchSet),
      meta = .zero_or_more ∨ meta = .zero_or_one →
      MatchSet.get_masks (.node meta cs) =
        (0, (cs.map (fun c => c.get_masks.1)).foldl (· ||| ·) 0 |||
          (cs.map (fun c => c.get_masks.2)).foldl (· ||| ·) 0)) ∧
    (∀ (meta : MetaType) (cs : List MatchSet),
      (MatchSet.get_masks (.node meta cs)).1 &&&
        (MatchSet.get_masks (.node meta cs)).2 = 0) ∧
    (∀ (meta : MetaType) (cs : List MatchSet) (cand : Match)
        (build : List BMatch) (final : Bool),
      (cand.required_mask &&& (MatchSet.get_masks (.node meta cs)).1) ≠
        (MatchSet.get_masks (.node meta cs)).1 →
      msSat (.node meta cs) cand build final = some []) := by
  refine ⟨?_, ?_, ?_, ?_, ?_⟩
  · intro cs
    simp [MatchSet.get_masks, get_masksL_eq_map, maskFold, List.map_map,
      Function.comp_def]
  · rintro meta c0 cs (rfl | rfl) <;>
      simp [MatchSet.get_masks, get_masksL_eq_map, maskFold, List.map_map,
        Function.comp_def]
  · rintro meta cs (rfl | rfl) <;>
      simp [MatchSet.get_masks, get_masksL_eq_map, maskFold, List.map_map,
        Function.comp_def, clearBits_zero]
  · intro meta cs
    have : MatchSet.get_masks (.node meta cs) =
        maskFold meta (MatchSet.get_masksL cs) := by
      simp [MatchSet.get_masks]
    rw [this]
    unfold maskFold
    cases meta <;> simp <;> apply land_clearBits_self
  · intro meta cs cand build final h
    simp only [msSat, MatchSet.depth, msSatF]
    rw [if_pos h]

/-- C2, witness: the required mask of the require-all triple is the OR of
the three field bits, a one-leaf one-or-more node keeps its single leaf's
required bit, the zero-or-one node has empty required mask, the masks of
the one-or-more triple are disjoint, and the empty candidate is pruned from
the require-all triple's search with the empty result. -/
theorem C2_masks_witness :
    MatchSet.get_masks (.node .all c1_children) =
      ((c1_children.map (fun c => c.get_masks.1)).foldl (· ||| ·) 0,
       clearBits ((c1_children.map (fun c => c.get_masks.2)).foldl (· ||| ·) 0)
         ((c1_children.map (fun c => c.get_masks.1)).foldl (· ||| ·) 0)) ∧
    MatchSet.get_masks (.node .one_or_more c1_children) =
      (((c1_children.drop 1).map (fun c => c.get_masks.1)).foldl (· &&& ·)
          (MatchSet.leaf (mkLeaf fVLAN .exact)).get_masks.1,
        clearBits
          ((c1_children.map (fun c => c.get_masks.1)).foldl (· ||| ·) 0 |||
            (c1_children.map (fun c => c.get_masks.2)).foldl (· ||| ·) 0)
          (((c1_children.drop 1).map (fun c => c.get_masks.1)).foldl (· &&& ·)
            (MatchSet.leaf (mkLeaf fVLAN .exact)).get_masks.1)) ∧
    (MatchSet.get_masks (.node .zero_or_one c1_children)).1 = 0 ∧
    (MatchSet.get_masks c1_oom).1 &&& (MatchSet.get_masks c1_oom).2 = 0 ∧
    msSat c1_all (mkCand []) [] true = some [] := by
  refine ⟨C2_masks_and_pruning.1 c1_children, ?_, ?_, ?_, ?_⟩
  · exact C2_masks_and_pruning.2.1 .one_or_more
      (.leaf (mkLeaf fVLAN .exact))
      [.leaf (mkLeaf fINP .exact), .leaf (mkLeaf fIPS .exact)] (Or.inl rfl)
  · rw [C2_masks_and_pruning.2.2.1 .zero_or_one c1_children (Or.inr rfl)]
  · exact C2_masks_and_pruning.2.2.2.1 .one_or_more c1_children
  · exact C2_masks_and_pruning.2.2.2.2 .all c1_children (mkCand []) [] true
      (by decide)

/-- Every linked predecessor edge strictly increases the table number. -/
theorem froms_lt (edges : List (Nat × Nat)) (t f : Nat)
    (h : f ∈ froms edges t) : f < t := by
  simp only [froms, List.mem_dedup, List.mem_map, List.mem_filter,
    decide_eq_true_eq] at h
  obtain ⟨e, ⟨_, he1, he2⟩, he3⟩ := h
  omega

/-- Shape of every path produced by the reachability recursion, by
induction on the fuel. -/
theorem get_reachableF_paths (edges : List (Nat × Nat)) :
    ∀ fuel t, t ≤ fuel → ∀ p ∈ get_reachableF edges fuel t,
      p.head? = some 0 ∧ p.getLast? = some t ∧ p.Chain' (· < ·) := by
  intro fuel
  induction fuel with
  | zero =>
    intro t ht p hp
    have h0 : t = 0 := Nat.le_zero.mp ht
    subst h0
    simp only [get_reachableF, List.mem_singleton] at hp
    subst hp
    refine ⟨rfl, rfl, List.chain'_singleton 0⟩
  | succ fuel ih =>
    intro t ht p hp
    cases t with
    | zero =>
      simp only [get_reachableF, List.mem_singleton] at hp
      subst hp
      refine ⟨rfl, rfl, List.chain'_singleton 0⟩
    | succ t' =>
      simp only [get_reachableF, List.mem_flatMap, List.mem_map] at hp
      obtain ⟨f, hf, q, hq, rfl⟩ := hp
      have hlt : f < t' + 1 := froms_lt edges (t' + 1) f hf
      have hfl : f ≤ fuel := by omega
      obtain ⟨hh, hl, hc⟩ := ih f hfl q hq
      obtain ⟨q0, qr, rfl⟩ : ∃ q0 qr, q = q0 :: qr := by
        cases q with
        | nil => simp at hh
        | cons a b => exact ⟨a, b, rfl⟩
      have hq0 : q0 = 0 := by simpa using hh
      refine ⟨by simp [hq0], ?_, ?_⟩
      · exact List.getLast?_concat _
      rw [List.chain'_append]
      refine ⟨hc, List.chain'_singleton _, ?_⟩
      intro x hx y hy
      simp only [Option.mem_def] at hx hy
      rw [hl] at hx
      have hx' : f = x := by injection hx
      have hy' : t' + 1 = y := by
        simp only [List.head?_cons, Option.some.injEq] at hy
        exact hy
      omega

/-- C7: every recorded GOTO edge strictly increases the table number,
non-increasing edges are dropped from the adjacency, and every path returned
by `get_reachable` starts at table 0, ends at the queried table and has
strictly increasing table numbers along the way. -/
theorem C7_goto_dag_reachability :
    (∀ (edges : List (Nat × Nat)) (t f : Nat), f ∈ froms edges t → f < t) ∧
    (∀ (edges : List (Nat × Nat)) (e : Nat × Nat),
      ¬ e.1 < e.2 → e.1 ∉ froms edges e.2) ∧
    (∀ (edges : List (Nat × Nat)) (t : Nat) (p : List Nat),
      p ∈ get_reachable edges t →
      p.head? = some 0 ∧ p.getLast? = some t ∧ p.Chain' (· < ·)) := by
  refine ⟨froms_lt, ?_, ?_⟩
  · intro edges e hne hmem
    exact hne (froms_lt edges e.2 e.1 hmem)
  · intro edges t p hp
    exact get_reachableF_paths edges t t (Nat.le_refl t) p hp

/-- Every character consumed by the digit loop is a valid digit under the
base. -/
theorem parseGo_mem (base : Nat) :
    ∀ (cs : List Char) (acc v : Nat), parseNatRadix.go base cs acc = some v →
      ∀ c ∈ cs, ∃ d, hexVal c = some d ∧ d < base := by
  intro cs
  induction cs with
  | nil => intro acc v _ c hc; cases hc
  | cons c0 rest ih =>
    intro acc v h c hc
    rcases hd : hexVal c0 with _ | d0
    · simp only [parseNatRadix.go, hd] at h
      cases h
    · simp only [parseNatRadix.go, hd] at h
      by_cases hb : d0 < base
      · rw [if_pos hb] at h
        rcases List.mem_cons.mp hc with hc2 | hc2
        · subst hc2
          exact ⟨d0, hd, hb⟩
        · exact ih _ v h c hc2
      · rw [if_neg hb] at h; cases h

/-- A successful radix parse means a non-empty, all-digit string. -/
theorem parseNatRadix_mem (base : Nat) (cs : List Char) (v : Nat)
    (h : parseNatRadix base cs = some v) :
    cs ≠ [] ∧ ∀ c ∈ cs, ∃ d, hexVal c = some d ∧ d < base := by
  cases cs with
  | nil => cases h
  | cons c0 rest =>
    refine ⟨by simp, ?_⟩
    exact parseGo_mem base (c0 :: rest) 0 v h

/-- Shape of a string accepted by `int(s, 16)`: non-empty, the head is `0`
or a hex digit, and every character is `x`, `X` or a hex digit. -/
theorem pyIntHex_shape (p : List Char) (w : Nat) (h : pyIntHex p = some w) :
    ∃ c rest, p = c :: rest ∧ (c = '0' ∨ (hexVal c).isSome) ∧
      ∀ c' ∈ p, c' = '0' ∨ c' = 'x' ∨ c' = 'X' ∨ (hexVal c').isSome := by
  have hall : ∀ (q : List Char) (hq : ∀ c ∈ q, ∃ d, hexVal c = some d ∧ d < 16),
      ∀ c' ∈ q, c' = '0' ∨ c' = 'x' ∨ c' = 'X' ∨ (hexVal c').isSome := by
    intro q hq c' hc'
    obtain ⟨d, hd, -⟩ := hq c' hc'
    exact Or.inr (Or.inr (Or.inr (by rw [hd]; rfl)))
  match p with
  | [] => cases h
  | [c0] =>
    have h' : parseNatRadix 16 [c0] = some w := h
    obtain ⟨-, hmem⟩ := parseNatRadix_mem 16 [c0] w h'
    obtain ⟨d, hd, -⟩ := hmem c0 (List.mem_cons_self c0 [])
    exact ⟨c0, [], rfl, Or.inr (by rw [hd]; rfl), hall _ hmem⟩
  | c0 :: c1 :: rest =>
    rw [pyIntHex] at h
    by_cases hc : c0 = '0' ∧ (c1 = 'x' ∨ c1 = 'X')
    · rw [if_pos hc] at h
      obtain ⟨-, hmem⟩ := parseNatRadix_mem 16 rest w h
      refine ⟨c0, c1 :: rest, rfl, Or.inl hc.1, ?_⟩
      intro c' hc'
      simp only [List.mem_cons] at hc'
      rcases hc' with hc' | hc' | hc'
      · subst hc'
        exact Or.inl hc.1
      · subst hc'
        rcases hc.2 with h2 | h2
        · exact Or.inr (Or.inl h2)
        · exact Or.inr (Or.inr (Or.inl h2))
      · exact hall _ hmem c' hc'
    · rw [if_neg hc] at h
      obtain ⟨-, hmem⟩ := parseNatRadix_mem 16 (c0 :: c1 :: rest) w h
      obtain ⟨d, hd, -⟩ := hmem c0 (List.mem_cons_self _ _)
      exact ⟨c0, c1 :: rest, rfl, Or.inr (by rw [hd]; rfl), hall _ hmem⟩

/-- Shape of a string accepted by `int(s)`: non-empty and all decimal
digits. -/
theorem pyIntDec_shape (p : List Char) (v : Nat) (h : pyIntDec p = some v) :
    ∃ c rest, p = c :: rest ∧ ∀ c' ∈ p, ∃ d, hexVal c' = some d ∧ d < 10 := by
  obtain ⟨hne, hmem⟩ := parseNatRadix_mem 10 p v h
  cases p with
  | nil => exact absurd rfl hne
  | cons a b => exact ⟨a, b, rfl, hmem⟩

/-- Splitting never yields the empty part list. -/
theorem charSplit_ne_nil (sep : Char) (s : List Char) :
    charSplit sep s ≠ [] := by
  cases s with
  | nil => simp [charSplit]
  | cons c rest =>
    rw [charSplit]
    by_cases h : c = sep
    · rw [if_pos h]; simp
    · rw [if_neg h]
      cases charSplit sep rest <;> simp

/-- A chunk without the separator splits into itself. -/
theorem charSplit_no_sep (sep : Char) (s : List Char) (h : sep ∉ s) :
    charSplit sep s = [s] := by
  induction s with
  | nil => rfl
  | cons c rest ih =>
    simp only [List.mem_cons, not_or] at h
    rw [charSplit, if_neg (fun hh => h.1 hh.symm), ih h.2]

/-- Splitting starts a new part at the separator. -/
theorem charSplit_chunk (sep : Char) (p s : List Char) (h : sep ∉ p) :
    charSplit sep (p ++ sep :: s) = p :: charSplit sep s := by
  induction p with
  | nil =>
    rw [List.nil_append, charSplit, if_pos rfl]
  | cons c p' ih =>
    simp only [List.mem_cons, not_or] at h
    rw [List.cons_append, charSplit, if_neg (fun hh => h.1 hh.symm),
      ih h.2]

/-- Splitting a join of separator-free parts recovers the parts. -/
theorem charSplit_joinSep (sep : Char) :
    ∀ ps : List (List Char), ps ≠ [] → (∀ q ∈ ps, sep ∉ q) →
      charSplit sep (joinSep sep ps) = ps := by
  intro ps
  induction ps with
  | nil => intro h; exact absurd rfl h
  | cons p rest ih =>
    intro _ h
    cases rest with
    | nil =>
      exact charSplit_no_sep sep p (h p (List.mem_cons_self p []))
    | cons q rest' =>
      have hj : joinSep sep (p :: q :: rest') = p ++ sep :: joinSep sep (q :: rest') := rfl
      rw [hj, charSplit_chunk sep p _ (h p (List.mem_cons_self p _)),
        ih (List.cons_ne_nil q rest')
          (fun q' hq' => h q' (List.mem_cons_of_mem p hq'))]

/-- A character distinct from the separator and absent from every part is
absent from the join. -/
theorem not_mem_joinSep (sep c : Char) (hc : c ≠ sep) :
    ∀ ps : List (List Char), (∀ q ∈ ps, c ∉ q) → c ∉ joinSep sep ps := by
  intro ps
  induction ps with
  | nil => intro _; simp [joinSep]
  | cons p rest ih =>
    intro h
    cases rest with
    | nil => exact h p (List.mem_cons_self p [])
    | cons q rest' =>
      have hj : joinSep sep (p :: q :: rest') = p ++ sep :: joinSep sep (q :: rest') := rfl
      rw [hj]
      simp only [List.mem_append, List.mem_cons, not_or]
      exact ⟨h p (List.mem_cons_self p _), hc,
        ih (fun q' hq' => h q' (List.mem_cons_of_mem p hq'))⟩

/-- The head of a join is the head of its first part when non-empty. -/
theorem joinSep_head (sep : Char) (q : List Char) (rest : List (List Char))
    (hq : q ≠ []) : (joinSep sep (q :: rest)).head? = q.head? := by
  cases rest with
  | nil => rfl
  | cons r rest' =>
    cases q with
    | nil => exact absurd rfl hq
    | cons a b => rfl

/-- A colon-free string has no double colon. -/
theorem hasDC_false_of_not_mem (s : List Char) (h : ':' ∉ s) :
    hasDoubleColon s = false := by
  induction s with
  | nil => rfl
  | cons a t ih =>
    simp only [List.mem_cons, not_or] at h
    cases t with
    | nil => rfl
    | cons b t' =>
      show ((a == ':' && b == ':') || hasDoubleColon (b :: t')) = false
      have ha : (a == ':') = false := by
        simp only [beq_eq_false_iff_ne, ne_eq]
        exact fun hh => h.1 hh.symm
      rw [ha]
      simp only [Bool.false_and, Bool.false_or]
      exact ih h.2

/-- Prefixing colon-free characters cannot create a double colon. -/
theorem hasDC_append_left (p s : List Char) (hp : ':' ∉ p)
    (hs : hasDoubleColon s = false) : hasDoubleColon (p ++ s) = false := by
  induction p with
  | nil => simpa using hs
  | cons a p' ih =>
    simp only [List.mem_cons, not_or] at hp
    have ih' := ih hp.2
    rw [List.cons_append]
    cases h2 : p' ++ s with
    | nil => rfl
    | cons b r =>
      show ((a == ':' && b == ':') || hasDoubleColon (b :: r)) = false
      have ha : (a == ':') = false := by
        simp only [beq_eq_false_iff_ne, ne_eq]
        exact fun hh => hp.1 hh.symm
      rw [ha]
      simp only [Bool.false_and, Bool.false_or]
      exact h2 ▸ ih'

/-- Joining non-empty colon-free parts with single colons never produces a
double colon. -/
theorem hasDC_joinColon :
    ∀ ps : List (List Char), (∀ q ∈ ps, q ≠ [] ∧ ':' ∉ q) →
      hasDoubleColon (joinSep ':' ps) = false := by
  intro ps
  induction ps with
  | nil => intro _; rfl
  | cons p rest ih =>
    intro h
    cases rest with
    | nil => exact hasDC_false_of_not_mem p (h p (List.mem_cons_self p [])).2
    | cons q rest' =>
      have hj : joinSep ':' (p :: q :: rest') = p ++ ':' :: joinSep ':' (q :: rest') := rfl
      rw [hj]
      apply hasDC_append_left p _ (h p (List.mem_cons_self p _)).2
      have htail : hasDoubleColon (joinSep ':' (q :: rest')) = false :=
        ih (fun q' hq' => h q' (List.mem_cons_of_mem p hq'))
      have hhead : (joinSep ':' (q :: rest')).head? = q.head? :=
        joinSep_head ':' q rest' (h q (by simp)).1
      cases h3 : joinSep ':' (q :: rest') with
      | nil => rfl
      | cons t0 t' =>
        show ((':' == ':' && t0 == ':') || hasDoubleColon (t0 :: t')) = false
        have : (t0 == ':') = false := by
          rw [h3] at hhead
          have hq0 : q.head? = some t0 := hhead.symm
          simp only [beq_eq_false_iff_ne, ne_eq]
          intro hcol
          subst hcol
          have := (h q (by simp)).2
          cases q with
          | nil => cases hq0
          | cons qc qr =>
            simp only [List.head?_cons, Option.some.injEq] at hq0
            exact this (by rw [hq0]; exact List.mem_cons_self _ _)
        rw [Bool.and_comm, this]
        simp only [Bool.false_and, Bool.false_or]
        rw [← h3]
        exact htail

/-- `replace("::", r)` leaves a string without a double colon unchanged. -/
theorem replaceDC_no_dc (r s : List Char) (h : hasDoubleColon s = false) :
    replaceDC r s = s := by
  induction s with
  | nil => rfl
  | cons a t ih =>
    cases t with
    | nil => rfl
    | cons b t' =>
      have h' : ((a == ':' && b == ':') || hasDoubleColon (b :: t')) = false := h
      have hnand : ¬(a = ':' ∧ b = ':') := by
        intro ⟨h1, h2⟩
        subst h1; subst h2
        simp at h'
      have ht : hasDoubleColon (b :: t') = false :=
        (Bool.or_eq_false_iff.mp h').2
      show (if a = ':' ∧ b = ':' then _ ++ replaceDC r t'
            else a :: replaceDC r (b :: t')) = a :: b :: t'
      rw [if_neg hnand, ih ht]

/-- The IPv6 group loop errors as soon as some group overflows 16 bits. -/
theorem ipv6Parts_err :
    ∀ (ps : List (List Char)) (shift res : Nat),
      (∀ p ∈ ps, p ≠ [] ∧ (pyIntHex p).isSome) →
      (∃ p ∈ ps, ∃ w, pyIntHex p = some w ∧ 0xFFFF < w) →
      ipv6Parts ps shift res = .err := by
  intro ps
  induction ps with
  | nil => intro shift res _ hex; simp at hex
  | cons p rest ih =>
    intro shift res hall hex
    obtain ⟨hne, hsome⟩ := hall p (List.mem_cons_self p rest)
    obtain ⟨v, hv⟩ := Option.isSome_iff_exists.mp hsome
    show (match pyIntHex (if p = [] then ['0'] else p) with
          | none => NRes.err
          | some v => if v > 0xFFFF then NRes.err
              else ipv6Parts rest (shift - 16) (res ||| (v <<< shift))) = NRes.err
    rw [if_neg hne, hv]
    show (if v > 0xFFFF then NRes.err
          else ipv6Parts rest (shift - 16) (res ||| (v <<< shift))) = NRes.err
    by_cases hbig : 0xFFFF < v
    · rw [if_pos hbig]
    · rw [if_neg hbig]
      apply ih _ _ (fun q hq => hall q (List.mem_cons_of_mem p hq))
      obtain ⟨q, hq, w, hw, hwbig⟩ := hex
      rcases List.mem_cons.mp hq with hq2 | hq2
      · exfalso
        rw [hq2, hv] at hw
        cases hw
        exact hbig hwbig
      · exact ⟨q, hq2, w, hw, hwbig⟩

/-- A string whose head is neither `L` nor `<` is not an override key. -/
theorem valueOverride_none (s : List Char) (c : Char) (h : s.head? = some c)
    (h1 : c ≠ 'L') (h2 : c ≠ '<') : valueOverride s = none := by
  unfold valueOverride
  split_ifs with g1 g2 g3
  · rw [g1] at h
    exact absurd (Option.some.inj h).symm h1
  · rw [g2] at h
    exact absurd (Option.some.inj h).symm h2
  · rw [g3] at h
    exact absurd (Option.some.inj h).symm h2
  · rfl

/-- Characters of a parsed decimal string exclude any non-hex-digit
character. -/
theorem digits_not_mem (p : List Char) (c : Char) (hc : hexVal c = none)
    (hmem : ∀ c' ∈ p, ∃ d, hexVal c' = some d ∧ d < 10) : c ∉ p := by
  intro hin
  obtain ⟨d, hd, -⟩ := hmem c hin
  rw [hc] at hd
  cases hd

/-- C9: the value normaliser raises on a dotted quad whose octets parse but
overflow a byte, on a canonical 8-group colon-separated IPv6 literal with a
group overflowing 16 bits, and on any string that matches none of the
accepted literal forms and is not a plain integer. -/
theorem C9_normalise_errors :
    (∀ (p1 p2 p3 p4 : List Char) (v1 v2 v3 v4 : Nat),
      pyIntDec p1 = some v1 → pyIntDec p2 = some v2 →
      pyIntDec p3 = some v3 → pyIntDec p4 = some v4 →
      0xFF < (v1 ||| v2 ||| v3 ||| v4) →
      normalise_value (.str (joinSep '.' [p1, p2, p3, p4])) = .err) ∧
    (∀ (qs : List (List Char)) (j : List Char) (w : Nat),
      qs.length = 8 → (∀ q ∈ qs, (pyIntHex q).isSome) →
      j ∈ qs → pyIntHex j = some w → 0xFFFF < w →
      normalise_value (.str (joinSep ':' qs)) = .err) ∧
    (∀ s : List Char,
      valueOverride s = none → s.head? ≠ some '<' →
      (charSplit ':' s).length ≠ 8 →
      ¬(3 ≤ (charSplit ':' s).length ∧ (charSplit ':' s).length ≤ 9 ∧
        hasDoubleColon s = true) →
      (charSplit '.' s).length ≠ 4 →
      (charSplit ':' s).length ≠ 6 →
      (charSplit '-' s).length ≠ 6 →
      pyIntBase0 s = none →
      normalise_value (.str s) = .err) := by
  refine ⟨?_, ?_, ?_⟩
  · intro p1 p2 p3 p4 v1 v2 v3 v4 h1 h2 h3 h4 hbig
    obtain ⟨c1, r1, hp1, hd1⟩ := pyIntDec_shape p1 v1 h1
    obtain ⟨c2, r2, hp2, hd2⟩ := pyIntDec_shape p2 v2 h2
    obtain ⟨c3, r3, hp3, hd3⟩ := pyIntDec_shape p3 v3 h3
    obtain ⟨c4, r4, hp4, hd4⟩ := pyIntDec_shape p4 v4 h4
    have hdigs : ∀ q ∈ [p1, p2, p3, p4],
        ∀ c' ∈ q, ∃ d, hexVal c' = some d ∧ d < 10 := by
      intro q hq
      simp only [List.mem_cons, List.not_mem_nil, or_false] at hq
      rcases hq with rfl | rfl | rfl | rfl
      exacts [hd1, hd2, hd3, hd4]
    have hno_colon : ':' ∉ joinSep '.' [p1, p2, p3, p4] :=
      not_mem_joinSep '.' ':' (by decide) _
        (fun q hq => digits_not_mem q ':' (by decide) (hdigs q hq))
    have hno_dash : '-' ∉ joinSep '.' [p1, p2, p3, p4] :=
      not_mem_joinSep '.' '-' (by decide) _
        (fun q hq => digits_not_mem q '-' (by decide) (hdigs q hq))
    have hsplitc : charSplit ':' (joinSep '.' [p1, p2, p3, p4]) =
        [joinSep '.' [p1, p2, p3, p4]] := charSplit_no_sep _ _ hno_colon
    have hsplitd : charSplit '-' (joinSep '.' [p1, p2, p3, p4]) =
        [joinSep '.' [p1, p2, p3, p4]] := charSplit_no_sep _ _ hno_dash
    have hdots : charSplit '.' (joinSep '.' [p1, p2, p3, p4]) =
        [p1, p2, p3, p4] := by
      apply charSplit_joinSep '.' [p1, p2, p3, p4] (by simp)
      intro q hq
      exact digits_not_mem q '.' (by decide) (hdigs q hq)
    have hhead : (joinSep '.' [p1, p2, p3, p4]).head? = some c1 := by
      rw [joinSep_head '.' p1 _ (by rw [hp1]; exact List.cons_ne_nil c1 r1),
        hp1]
      rfl
    have hc1hex : ∃ d, hexVal c1 = some d ∧ d < 10 :=
      hd1 c1 (by rw [hp1]; exact List.mem_cons_self c1 r1)
    have hc1L : c1 ≠ 'L' := by
      intro he
      obtain ⟨d, hd, -⟩ := hc1hex
      rw [he] at hd
      have hiss : (hexVal 'L').isSome := by rw [hd]; rfl
      exact absurd hiss (by decide)
    have hc1lt : c1 ≠ '<' := by
      intro he
      obtain ⟨d, hd, -⟩ := hc1hex
      rw [he] at hd
      have hiss : (hexVal '<').isSome := by rw [hd]; rfl
      exact absurd hiss (by decide)
    have hov : valueOverride (joinSep '.' [p1, p2, p3, p4]) = none :=
      valueOverride_none _ c1 hhead hc1L hc1lt
    have hheadlt : (joinSep '.' [p1, p2, p3, p4]).head? ≠ some '<' := by
      rw [hhead]
      intro he
      exact hc1lt (Option.some.inj he)
    simp only [normalise_value, hov]
    rw [if_neg hheadlt]
    have hcond1 : ¬((charSplit ':' (joinSep '.' [p1, p2, p3, p4])).length = 8 ∨
        (3 ≤ (charSplit ':' (joinSep '.' [p1, p2, p3, p4])).length ∧
          (charSplit ':' (joinSep '.' [p1, p2, p3, p4])).length ≤ 9 ∧
          hasDoubleColon (joinSep '.' [p1, p2, p3, p4]))) := by
      rw [hsplitc]
      simp
    rw [if_neg hcond1]
    have hdl : (charSplit '.' (joinSep '.' [p1, p2, p3, p4])).length = 4 := by
      rw [hdots]
      rfl
    rw [if_pos hdl, hdots]
    simp only [ipv4Parts, h1, h2, h3, h4]
    rw [if_pos hbig]
  · intro qs j w hlen hall hj hw hwbig
    obtain ⟨q1, qrest, rfl⟩ : ∃ q1 qrest, qs = q1 :: qrest := by
      cases qs with
      | nil => cases hlen
      | cons a b => exact ⟨a, b, rfl⟩
    have hshape : ∀ q ∈ q1 :: qrest, ∃ c rest, q = c :: rest ∧
        (c = '0' ∨ (hexVal c).isSome) ∧
        ∀ c' ∈ q, c' = '0' ∨ c' = 'x' ∨ c' = 'X' ∨ (hexVal c').isSome := by
      intro q hq
      obtain ⟨wq, hwq⟩ := Option.isSome_iff_exists.mp (hall q hq)
      exact pyIntHex_shape q wq hwq
    have hqprops : ∀ q ∈ q1 :: qrest, q ≠ [] ∧ ':' ∉ q := by
      intro q hq
      obtain ⟨c, rest, rfl, -, hchars⟩ := hshape q hq
      refine ⟨List.cons_ne_nil c rest, ?_⟩
      intro hin
      rcases hchars ':' hin with h0 | h0 | h0 | h0 <;> revert h0 <;> decide
    have hsplitc : charSplit ':' (joinSep ':' (q1 :: qrest)) = q1 :: qrest :=
      charSplit_joinSep ':' _ (List.cons_ne_nil q1 qrest)
        (fun q hq => (hqprops q hq).2)
    have hdc : hasDoubleColon (joinSep ':' (q1 :: qrest)) = false :=
      hasDC_joinColon _ hqprops
    obtain ⟨cq, rq, hq1, hcq, -⟩ := hshape q1 (List.mem_cons_self q1 qrest)
    have hhead : (joinSep ':' (q1 :: qrest)).head? = some cq := by
      rw [joinSep_head ':' q1 _ (by rw [hq1]; exact List.cons_ne_nil cq rq),
        hq1]
      rfl
    have hcqL : cq ≠ 'L' := by
      intro he
      rcases hcq with h0 | h0
      · rw [he] at h0; cases h0
      · rw [he] at h0; exact absurd h0 (by decide)
    have hcqlt : cq ≠ '<' := by
      intro he
      rcases hcq with h0 | h0
      · rw [he] at h0; cases h0
      · rw [he] at h0; exact absurd h0 (by decide)
    have hov : valueOverride (joinSep ':' (q1 :: qrest)) = none :=
      valueOverride_none _ cq hhead hcqL hcqlt
    have hheadlt : (joinSep ':' (q1 :: qrest)).head? ≠ some '<' := by
      rw [hhead]
      intro he
      exact hcqlt (Option.some.inj he)
    have hlen8 : (charSplit ':' (joinSep ':' (q1 :: qrest))).length = 8 := by
      rw [hsplitc]
      exact hlen
    simp only [normalise_value, hov]
    rw [if_neg hheadlt, if_pos (Or.inl hlen8)]
    have hrep : replaceDC
        (List.replicate
          (10 - (charSplit ':' (joinSep ':' (q1 :: qrest))).length) ':')
        (joinSep ':' (q1 :: qrest)) = joinSep ':' (q1 :: qrest) :=
      replaceDC_no_dc _ _ hdc
    rw [hrep, hsplitc, if_pos hlen]
    exact ipv6Parts_err (q1 :: qrest) 112 0
      (fun q hq => ⟨(hqprops q hq).1, hall q hq⟩) ⟨j, hj, w, hw, hwbig⟩
  · intro s hov hhead hn8 hn39 hn4 hn6 hnd6 hbase
    simp only [normalise_value, hov]
    rw [if_neg hhead]
    have hcond1 : ¬((charSplit ':' s).length = 8 ∨
        (3 ≤ (charSplit ':' s).length ∧ (charSplit ':' s).length ≤ 9 ∧
          hasDoubleColon s)) := by
      rintro (h | h)
      · exact hn8 h
      · exact hn39 h
    rw [if_neg hcond1, if_neg hn4, if_neg hn6, if_neg hnd6, hbase]

/-- C9, witness: `300.7.5.8` (octet overflow), the 8-group literal with the
overflowing group `fffff`, and the non-literal string `a0x143` all raise. -/
theorem C9_normalise_witness :
    normalise_value (.str (joinSep '.'
      [ "300".data, "7".data, "5".data, "8".data])) = .err ∧
    normalise_value (.str (joinSep ':'
      [ "bade".data, "0".data, "ca54".data, "5".data, "4".data,
        "fffff".data, "4".data, "9".data])) = .err ∧
    normalise_value (.str ( "a0x143").data) = .err := by
  refine ⟨?_, ?_, ?_⟩
  · exact C9_normalise_errors.1 "300".data "7".data "5".data "8".data
      300 7 5 8 (by decide) (by decide) (by decide) (by decide) (by decide)
  · exact C9_normalise_errors.2.1
      [ "bade".data, "0".data, "ca54".data, "5".data, "4".data,
        "fffff".data, "4".data, "9".data] "fffff".data 0xfffff
      (by decide) (by decide) (by decide) (by decide) (by decide)
  · exact C9_normalise_errors.2.2 ( "a0x143").data (by decide) (by decide)
      (by decide) (by decide) (by decide) (by decide) (by decide) (by decide)

/-- A contiguous high-order run of length `r` drives the prefix loop to 0
(any fuel at least `r` suffices). -/
theorem pfxLoop_run_zero :
    ∀ r : Nat, r ≤ 32 → ∀ (fuel m : Nat), m = 2 ^ 32 - 2 ^ (32 - r) →
      r ≤ fuel → TTPMatch.pfxLoop 0x80000000 fuel m = 0 := by
  intro r
  induction r with
  | zero =>
    intro _ fuel m hm _
    have hm0 : m = 0 := by rw [hm]; norm_num
    subst hm0
    cases fuel with
    | zero => rfl
    | succ fl =>
      simp only [TTPMatch.pfxLoop]
      rw [if_neg (by decide)]
  | succ r ih =>
    intro hr32 fuel m hm hrf
    obtain ⟨fl, rfl⟩ : ∃ fl, fuel = fl + 1 := ⟨fuel - 1, by omega⟩
    have hpow1 : (2 : Nat) ^ (32 - r) = 2 * 2 ^ (31 - r) := by
      rw [show 32 - r = (31 - r) + 1 by omega, pow_succ]
      ring
    have hple : (2 : Nat) ^ (31 - r) ≤ 2 ^ 31 :=
      Nat.pow_le_pow_right (by norm_num) (by omega)
    have hppos : 1 ≤ (2 : Nat) ^ (31 - r) := Nat.one_le_two_pow
    have h31 : (2 : Nat) ^ 31 = 0x80000000 := by norm_num
    have h32 : (2 : Nat) ^ 32 = 0x100000000 := by norm_num
    have hm' : m = 2 ^ 32 - 2 ^ (31 - r) := by
      rw [hm, show 32 - (r + 1) = 31 - r by omega]
    have hmge : 0x80000000 ≤ m := by
      rw [hm', h32]
      omega
    have hmlt : m < 0x100000000 := by
      rw [hm', h32]
      omega
    have ht : m.testBit 31 = true := by
      rw [Nat.testBit_to_div_mod]
      simp only [decide_eq_true_eq]
      rw [h31]
      omega
    have hland : 0x80000000 &&& m = 0x80000000 := by
      calc 0x80000000 &&& m = 2 ^ 31 &&& m := by norm_num
        _ = 2 ^ 31 * (m.testBit 31).toNat := Nat.two_pow_and m 31
        _ = 0x80000000 := by rw [ht, h31]; norm_num
    simp only [TTPMatch.pfxLoop]
    rw [if_pos (by rw [hland]; exact beq_self_eq_true 0x80000000)]
    have hnew : (m - 0x80000000) <<< 1 = 2 ^ 32 - 2 ^ (32 - r) := by
      rw [Nat.shiftLeft_eq, hm', hpow1, h32]
      have : (2 : Nat) ^ 1 = 2 := rfl
      rw [this]
      omega
    exact ih (by omega) fl _ hnew (by omega)

/-- If the prefix loop reaches 0 on a 32-bit mask, the mask was a
contiguous high-order run. -/
theorem pfxLoop_zero_run :
    ∀ fuel m : Nat, m < 2 ^ 32 → TTPMatch.pfxLoop 0x80000000 fuel m = 0 →
      specHighRun 32 m := by
  intro fuel
  induction fuel with
  | zero =>
    intro m _ h
    refine ⟨0, by omega, ?_⟩
    have hm0 : m = 0 := h
    rw [hm0]
    norm_num
  | succ fl ih =>
    intro m hlt h
    have h32 : (2 : Nat) ^ 32 = 0x100000000 := by norm_num
    have h31 : (2 : Nat) ^ 31 = 0x80000000 := by norm_num
    by_cases hg : (0x80000000 &&& m == 0x80000000) = true
    · have hland : 0x80000000 &&& m = 0x80000000 := eq_of_beq hg
      have htb : m.testBit 31 = true := by
        have h1 := Nat.two_pow_and m 31
        rw [h31, hland] at h1
        cases htb2 : m.testBit 31
        · rw [htb2] at h1
          simp at h1
        · rfl
      have hge : 0x80000000 ≤ m := by
        rw [Nat.testBit_to_div_mod] at htb
        simp only [decide_eq_true_eq] at htb
        rw [h31] at htb
        omega
      simp only [TTPMatch.pfxLoop] at h
      rw [if_pos hg] at h
      have hshift : (m - 0x80000000) <<< 1 = (m - 0x80000000) * 2 := by
        rw [Nat.shiftLeft_eq]
      have hm'lt : (m - 0x80000000) <<< 1 < 2 ^ 32 := by
        rw [hshift, h32]
        rw [h32] at hlt
        omega
      obtain ⟨r', hr', he⟩ := ih _ hm'lt h
      rw [hshift] at he
      have hr31 : r' ≤ 31 := by
        by_contra hcon
        have hr32 : r' = 32 := by omega
        rw [hr32] at he
        have hz : (2 : Nat) ^ (32 - 32) = 1 := by norm_num
        rw [hz, h32] at he
        omega
      have hpow1 : (2 : Nat) ^ (32 - r') = 2 * 2 ^ (31 - r') := by
        rw [show 32 - r' = (31 - r') + 1 by omega, pow_succ]
        ring
      have hppos : 1 ≤ (2 : Nat) ^ (31 - r') := Nat.one_le_two_pow
      have hple : (2 : Nat) ^ (31 - r') ≤ 2 ^ 31 :=
        Nat.pow_le_pow_right (by norm_num) (by omega)
      refine ⟨r' + 1, by omega, ?_⟩
      rw [show 32 - (r' + 1) = 31 - r' by omega]
      rw [hpow1, h32] at he
      rw [h32]
      rw [h31] at hple
      rw [h32] at hlt
      omega
    · simp only [TTPMatch.pfxLoop] at h
      rw [if_neg hg] at h
      refine ⟨0, by omega, ?_⟩
      rw [h]
      norm_num

/-- C5 amended: a plain prefix-discipline 32-bit leaf (no constant bits, no
fixed value or mask) accepts a candidate mask exactly when the
width-truncated candidate mask itself is a contiguous high-order run of 1s
(the empty and the full run included); an absent mask is accepted, and
`0x7fff0000` is rejected.  Constant bits are not cleared before the
contiguity test. -/
theorem C5_pfx_amended :
    (∀ v, c5_leaf.satisfies v none = some true) ∧
    (∀ v mm, c5_leaf.satisfies v (some mm) = some true ↔
      specHighRun 32 (mm &&& 0xffffffff)) ∧
    c5_leaf.satisfies 154 (some 0x7fff0000) = some false ∧
    c5_leaf.satisfies 12 (some 0xffffffff) = some true ∧
    c5_leaf.satisfies 0 (some 0) = some true := by
  refine ⟨fun v => rfl, ?_, by decide, by decide, by decide⟩
  intro v mm
  have hcomp : c5_leaf.satisfies v (some mm) =
      some (TTPMatch.pfxLoop 0x80000000 ((mm &&& 0xffffffff) + 1)
        (mm &&& 0xffffffff) == 0) := rfl
  rw [hcomp]
  have hltw : mm &&& 0xffffffff < 2 ^ 32 :=
    Nat.lt_of_le_of_lt Nat.and_le_right (by norm_num)
  constructor
  · intro h
    have hz : TTPMatch.pfxLoop 0x80000000 ((mm &&& 0xffffffff) + 1)
        (mm &&& 0xffffffff) = 0 := by
      have h2 := Option.some.inj h
      exact eq_of_beq h2
    exact pfxLoop_zero_run _ _ hltw hz
  · rintro ⟨r, hr, he⟩
    have hfuel : r ≤ (mm &&& 0xffffffff) + 1 := by
      rcases Nat.eq_zero_or_pos r with h0 | hpos
      · omega
      · have hle : (2 : Nat) ^ (32 - r) ≤ 2 ^ 31 :=
          Nat.pow_le_pow_right (by norm_num) (by omega)
        have h31 : (2 : Nat) ^ 31 = 0x80000000 := by norm_num
        have h32 : (2 : Nat) ^ 32 = 0x100000000 := by norm_num
        rw [h31] at hle
        rw [h32] at he
        omega
    have hz := pfxLoop_run_zero r hr ((mm &&& 0xffffffff) + 1)
      (mm &&& 0xffffffff) he hfuel
    rw [hz]
    rfl

/-- C5 counterexample: a prefix leaf carrying the constant bit
`const_mask = const_value = 1` rejects the candidate `(value 1, mask 1)`
although all side constraints hold and the candidate mask with the leaf's
constant bits cleared (`0`) is a contiguous high-order run — the code tests
the raw candidate mask for contiguity, it does not clear constant bits
first. -/
theorem C5_counterexample :
    c5c_leaf.satisfies 1 (some 1) = some false ∧
    c5c_leaf.satisfies_const 1 (some 1) = true ∧
    c5c_leaf.satisfies_mask (some 1) = true ∧
    c5c_leaf.satisfies_value 1 (some 1) = true ∧
    clearBits (1 &&& 0xffffffff) 1 = 0 ∧
    specHighRun 32 (clearBits (1 &&& 0xffffffff) 1) := by
  refine ⟨by decide, by decide, by decide, by decide, by decide, 0, by omega, by decide⟩

/-- C7, witness: on the edge list `[(0,1),(1,2),(2,1)]` only increasing
edges are linked, the dropped back edge `(2,1)` is absent from `froms`, and
the one path to table 2 is `[0,1,2]`. -/
theorem C7_goto_witness :
    (1 ∈ froms [(0,1),(1,2),(2,1)] 2 → 1 < 2) ∧
    (2 : Nat) ∉ froms [(0,1),(1,2),(2,1)] 1 ∧
    ([0,1,2].head? = some 0 ∧ [0,1,2].getLast? = some 2 ∧
      ([0,1,2] : List Nat).Chain' (· < ·)) := by
  refine ⟨C7_goto_dag_reachability.1 [(0,1),(1,2),(2,1)] 2 1, ?_, ?_⟩
  · exact C7_goto_dag_reachability.2.1 [(0,1),(1,2),(2,1)] (2,1) (by decide)
  · exact C7_goto_dag_reachability.2.2 [(0,1),(1,2),(2,1)] 2 [0,1,2] (by decide)

/-- Folding `setInsert` over a duplicate-free list disjoint from the
accumulator just appends it. -/
theorem foldl_setInsert_of_nodup {B : Type} [DecidableEq B] :
    ∀ (l acc : List B), (∀ x ∈ l, x ∉ acc) → l.Nodup →
      l.foldl RMap.setInsert acc = acc ++ l := by
  intro l
  induction l with
  | nil =>
    intro acc _ _
    simp
  | cons b t ih =>
    intro acc hdisj hnd
    have hb : b ∉ acc := hdisj b (List.mem_cons_self b t)
    have hstep : RMap.setInsert acc b = acc ++ [b] := by
      simp [RMap.setInsert, hb]
    rw [List.foldl_cons, hstep, ih (acc ++ [b]) ?_ (List.Nodup.of_cons hnd)]
    · simp
    · intro x hx
      simp only [List.mem_append, List.mem_singleton, not_or]
      refine ⟨hdisj x (List.mem_cons_of_mem b hx), ?_⟩
      intro hcon
      exact (List.nodup_cons.mp hnd).1 (hcon ▸ hx)

/-- Removing a field that is present changes the candidate. -/
theorem removeField_ne (cand : Match) (f : String) (v : Nat) (mc : Option Nat)
    (h : cand.get? f = some (v, mc)) : cand.removeField f ≠ cand := by
  obtain ⟨e, he⟩ : ∃ e, cand.entries.find? (fun e => e.1 == f) = some e := by
    unfold Match.get? at h
    cases hf : cand.entries.find? (fun e => e.1 == f) with
    | none => rw [hf] at h; cases h
    | some e => exact ⟨e, rfl⟩
  have hmem : e ∈ cand.entries := List.mem_of_find?_eq_some he
  have hprop : (e.1 == f) = true := by
    have hp := List.find?_some he
    simpa using hp
  intro hcon
  have hmem2 : e ∈ (cand.removeField f).entries := by rw [hcon]; exact hmem
  have hmem3 : e ∈ cand.entries.filter (fun e => e.1 != f) := hmem2
  have hfilt := (List.mem_filter.mp hmem3).2
  exact absurd (eq_of_beq hprop) (bne_iff_ne.mp hfilt)

/-- C10: an optional leaf's `_satisfies` result always contains the vacuous
entry mapping the unchanged candidate to the unchanged (duplicate-free)
build set; when the candidate carries the leaf's field and the field
satisfies the leaf, the result additionally maps the consumed residual to
the builds extended with the entry and the leaf. -/
theorem C10_optional_vacuous (m : TTPMatch) (cand : Match)
    (builds : List BMatch) (r : RMap Match BMatch)
    (hreq : m.is_required = false) (hnd : builds.Nodup)
    (hr : m.msat cand builds = some r) :
    RMap.lookup r cand = some builds ∧
    ∀ v mc, cand.get? m.field_name = some (v, mc) →
      m.satisfies v mc = some true →
      RMap.lookup r (cand.removeField m.field_name) =
        some (builds.map fun b =>
          ⟨b.entries ++ [(m.field_name, v, mc)], b.binding ++ [m]⟩) := by
  have hdedup : builds.foldl RMap.setInsert [] = builds := by
    have h := foldl_setInsert_of_nodup builds [] (by simp) hnd
    simpa using h
  have hres : (if ! m.is_required then
      RMap.insertVals ([] : RMap Match BMatch) cand builds else []) =
      [(cand, builds)] := by
    rw [hreq]
    show RMap.insertVals ([] : RMap Match BMatch) cand builds = [(cand, builds)]
    simp [RMap.insertVals, hdedup]
  unfold TTPMatch.msat at hr
  rw [hres] at hr
  cases hg : cand.get? m.field_name with
  | none =>
    rw [hg] at hr
    have hr2 : some [(cand, builds)] = some r := hr
    have hrr : r = [(cand, builds)] := (Option.some.inj hr2).symm
    subst hrr
    constructor
    · simp [RMap.lookup]
    · intro v mc hvm
      cases hvm
  | some p =>
    obtain ⟨v0, mc0⟩ := p
    rw [hg] at hr
    have hr2 : (match m.satisfies v0 mc0 with
        | none => none
        | some false => some [(cand, builds)]
        | some true =>
          some (RMap.insertVals [(cand, builds)]
            (cand.removeField m.field_name)
            (builds.map fun b =>
              ⟨b.entries ++ [(m.field_name, v0, mc0)], b.binding ++ [m]⟩))) =
        some r := hr
    cases hs : m.satisfies v0 mc0 with
    | none =>
      rw [hs] at hr2
      cases hr2
    | some acc =>
      cases acc with
      | false =>
        rw [hs] at hr2
        have hrr : r = [(cand, builds)] := (Option.some.inj hr2).symm
        subst hrr
        constructor
        · simp [RMap.lookup]
        · intro v mc hvm hsat
          obtain ⟨hv, hmc⟩ := Prod.mk.injEq .. ▸ Option.some.inj hvm
          subst hv
          subst hmc
          rw [hs] at hsat
          cases hsat
      | true =>
        rw [hs] at hr2
        have hne : cand ≠ cand.removeField m.field_name := fun hcon =>
          removeField_ne cand m.field_name v0 mc0 hg hcon.symm
        have hinj : Function.Injective (fun b : BMatch =>
            (⟨b.entries ++ [(m.field_name, v0, mc0)],
              b.binding ++ [m]⟩ : BMatch)) := by
          intro a b hab
          simp only [BMatch.mk.injEq] at hab
          obtain ⟨h1, h2⟩ := hab
          cases a
          cases b
          simp only [BMatch.mk.injEq]
          exact ⟨List.append_cancel_right h1, List.append_cancel_right h2⟩
        have hndm : (builds.map fun b =>
            (⟨b.entries ++ [(m.field_name, v0, mc0)],
              b.binding ++ [m]⟩ : BMatch)).Nodup := hnd.map hinj
        have hded2 : ((builds.map fun b =>
            (⟨b.entries ++ [(m.field_name, v0, mc0)],
              b.binding ++ [m]⟩ : BMatch)).foldl RMap.setInsert []) =
            builds.map fun b =>
              (⟨b.entries ++ [(m.field_name, v0, mc0)],
                b.binding ++ [m]⟩ : BMatch) := by
          have h := foldl_setInsert_of_nodup _ [] (by simp) hndm
          simpa using h
        have hrr : r = [(cand, builds),
            (cand.removeField m.field_name,
              builds.map fun b =>
                (⟨b.entries ++ [(m.field_name, v0, mc0)],
                  b.binding ++ [m]⟩ : BMatch))] := by
          have h3 := (Option.some.inj hr2).symm
          rw [h3]
          simp [RMap.insertVals, hne, hded2]
        subst hrr
        constructor
        · simp [RMap.lookup]
        · intro v mc hvm hsat
          obtain ⟨hv, hmc⟩ := Prod.mk.injEq .. ▸ Option.some.inj hvm
          subst hv
          subst hmc
          simp [RMap.lookup, hne]

/-- C10, witness: the all_or_exact `IN_PORT` leaf on the candidate
`{IN_PORT: (5, None)}` keeps the vacuous entry and adds the consumed
residual. -/
theorem C10_witness :
    RMap.lookup c10_res c10_cand = some c10_builds ∧
    RMap.lookup c10_res (mkCand []) =
      some [⟨[(fINP, 5, none)], [c10_leaf]⟩] :=
  ⟨(C10_optional_vacuous c10_leaf c10_cand c10_builds c10_res (by decide)
      (by decide) (by decide)).1,
   (C10_optional_vacuous c10_leaf c10_cand c10_builds c10_res (by decide)
      (by decide) (by decide)).2 5 none (by decide) (by decide)⟩

/-- The match-binding replay equals the spec-side leaf-by-leaf replay,
for any accumulated build prefix. -/
theorem matchReplay_acc :
    ∀ (bs : List TTPMatch) (cand : Match) (acc : List MEntry)
      (out : Match × List MEntry),
      matchReplay bs cand acc = some out ↔
        ∃ tail, out.2 = acc ++ tail ∧ ReplaySpec bs cand out.1 tail := by
  intro bs
  induction bs with
  | nil =>
    intro cand acc out
    obtain ⟨o1, o2⟩ := out
    constructor
    · intro h
      have h2 : some (cand, acc) = some (o1, o2) := h
      obtain ⟨h3, h4⟩ := Prod.mk.injEq .. ▸ Option.some.inj h2
      subst h3
      subst h4
      exact ⟨[], by simp, ReplaySpec.nil cand⟩
    · rintro ⟨tail, h1, h2⟩
      cases h2
      simp at h1
      subst h1
      rfl
  | cons b bs ih =>
    intro cand acc out
    obtain ⟨o1, o2⟩ := out
    show (leafApply b cand acc).bind _ = some (o1, o2) ↔ _
    cases hg : cand.get? b.field_name with
    | none =>
      have hla : leafApply b cand acc = none := by
        simp only [leafApply, hg]
      rw [hla]
      simp only [Option.none_bind]
      constructor
      · intro h
        cases h
      · rintro ⟨tail, h1, h2⟩
        cases h2 with
        | cons b bs cand res v mc es hget hsat hrest =>
          rw [hg] at hget
          cases hget
    | some p =>
      obtain ⟨v, mc⟩ := p
      cases hs : b.satisfies v mc with
      | none =>
        have hla : leafApply b cand acc = none := by
          simp only [leafApply, hg, hs]
        rw [hla]
        simp only [Option.none_bind]
        constructor
        · intro h
          cases h
        · rintro ⟨tail, h1, h2⟩
          cases h2 with
          | cons b bs cand res v2 mc2 es hget hsat hrest =>
            rw [hg] at hget
            obtain ⟨hv, hmc⟩ := Prod.mk.injEq .. ▸ Option.some.inj hget
            subst hv
            subst hmc
            rw [hs] at hsat
            cases hsat
      | some sb =>
        cases sb with
        | false =>
          have hla : leafApply b cand acc = none := by
            simp only [leafApply, hg, hs]
          rw [hla]
          simp only [Option.none_bind]
          constructor
          · intro h
            cases h
          · rintro ⟨tail, h1, h2⟩
            cases h2 with
            | cons b bs cand res v2 mc2 es hget hsat hrest =>
              rw [hg] at hget
              obtain ⟨hv, hmc⟩ := Prod.mk.injEq .. ▸ Option.some.inj hget
              subst hv
              subst hmc
              rw [hs] at hsat
              cases hsat
        | true =>
          have hla : leafApply b cand acc =
              some (cand.removeField b.field_name,
                acc ++ [(b.field_name, v, mc)]) := by
            simp only [leafApply, hg, hs]
          rw [hla]
          simp only [Option.some_bind]
          rw [ih]
          constructor
          · rintro ⟨tail, h1, h2⟩
            have h1a : o2 = acc ++ [(b.field_name, v, mc)] ++ tail := h1
            have h2a : ReplaySpec bs (cand.removeField b.field_name) o1
                tail := h2
            refine ⟨(b.field_name, v, mc) :: tail, ?_, ?_⟩
            · show o2 = _
              rw [h1a]
              simp
            · exact ReplaySpec.cons b bs cand o1 v mc tail hg hs h2a
          · rintro ⟨tail, h1, h2⟩
            have h1a : o2 = acc ++ tail := h1
            have h2a : ReplaySpec (b :: bs) cand o1 tail := h2
            cases h2a with
            | cons b bs cand res v2 mc2 es hget hsat hrest =>
              rw [hg] at hget
              obtain ⟨hv, hmc⟩ := Prod.mk.injEq .. ▸ Option.some.inj hget
              subst hv
              subst hmc
              refine ⟨es, ?_, hrest⟩
              show o2 = _
              rw [h1a]
              simp


/-- A successful `TTPFlow.apply` takes priority, cookie and table from the
model and places exactly the replayed match entries. -/
theorem flowApply_model (flow : CRule) (model : BRule) (out : CRule)
    (h : flowApply flow model = some out) :
    out.priority = model.priority ∧ out.cookie = model.cookie ∧
    out.table = model.table ∧
    ∃ res, ReplaySpec model.rmatch.binding flow.rmatch res
      out.rmatch.entries := by
  simp only [flowApply] at h
  cases hm : matchReplay model.rmatch.binding flow.rmatch [] with
  | none =>
    rw [hm] at h
    simp only [Option.none_bind] at h
    cases h
  | some mres =>
    rw [hm] at h
    simp only [Option.some_bind] at h
    cases hi : instrReplay model.instrs.binding
        { flow.instrs with clear_actions := model.instrs.clear_actions }
        {} with
    | none =>
      rw [hi] at h
      simp only [Option.none_bind] at h
      cases h
    | some ires =>
      rw [hi] at h
      simp only [Option.some_bind] at h
      cases ha : alApply model.instrs.apply_actions
          (ires.1.apply_actions ++ ires.1.write_actions) [] with
      | none =>
        rw [ha] at h
        simp only [Option.none_bind] at h
        cases h
      | some papply =>
        rw [ha] at h
        simp only [Option.some_bind] at h
        cases hw : alApply model.instrs.write_actions papply.1 [] with
        | none =>
          rw [hw] at h
          simp only [Option.map_none'] at h
          cases h
        | some pwrite =>
          rw [hw] at h
          simp only [Option.map_some'] at h
          have hout := (Option.some.inj h).symm
          obtain ⟨tail, h1, h2⟩ := (matchReplay_acc _ _ _ _).mp hm
          refine ⟨by rw [hout], by rw [hout], by rw [hout], mres.1, ?_⟩
          have he : out.rmatch.entries = mres.2 := by
            rw [hout]
          rw [he, h1]
          simpa using h2


/-- C3 counterexample: the flow template with a fixed-value
`all_or_exact IPV4_SRC = 16` leaf, a free-mask `IN_PORT` leaf and a GOTO
instruction accepts `rule_A` with the single shown model; `rule_Bbad` is
structurally identical to `rule_A` (same fields with the same masks, the
same instructions, the same priority, only the concrete `IPV4_SRC` value
differs: 17 for 16) yet `apply` of the binding to it raises
(`assert self.satisfies(match[0], match[1])` fails on the fixed-value
leaf) instead of producing a placed rule. -/
theorem C3_counterexample :
    flowSat c3_tflow c3_ruleA = some [(c3_key, [c3_model])] ∧
    c3_ruleA.rmatch.entries.map (fun e => (e.1, e.2.2)) =
      c3_ruleBbad.rmatch.entries.map (fun e => (e.1, e.2.2)) ∧
    c3_ruleA.instrs = c3_ruleBbad.instrs ∧
    c3_ruleA.priority = c3_ruleBbad.priority ∧
    flowApply c3_ruleBbad c3_model = none := by
  refine ⟨by decide, by decide, by decide, by decide, by decide⟩

/-- C3 amended: the binding replay of `apply` consumes, leaf by leaf, the
candidate's concrete `(value, mask)` at each bound leaf's field and
requires it to satisfy the leaf (so fixed template values are enforced,
not overwritten); every successful `apply` takes priority, cookie and
table from the model and its placed match entries are exactly the
replayed concrete values of `rule_B`; on the counterexample's template,
a `rule_B` whose values do satisfy the bound leaves (here a different
`IN_PORT`) is placed, carrying `rule_B`'s concrete values and the
template's fixed GOTO. -/
theorem C3_apply_replay :
    (∀ bs cand res es, matchReplay bs cand [] = some (res, es) ↔
      ReplaySpec bs cand res es) ∧
    (∀ flow model out, flowApply flow model = some out →
      out.priority = model.priority ∧ out.cookie = model.cookie ∧
      out.table = model.table ∧
      ∃ rres, ReplaySpec model.rmatch.binding flow.rmatch rres
        out.rmatch.entries) ∧
    flowApply c3_ruleB c3_model = some c3_out := by
  refine ⟨?_, fun flow model out h => flowApply_model flow model out h,
    by decide⟩
  intro bs cand res es
  rw [matchReplay_acc bs cand [] (res, es)]
  simp

/-- C3, witness: the amended theorem applied to the concrete `rule_B`. -/
theorem C3_replay_witness :
    c3_out.priority = c3_model.priority ∧ c3_out.cookie = c3_model.cookie ∧
    c3_out.table = c3_model.table ∧
    ∃ rres, ReplaySpec c3_model.rmatch.binding c3_ruleB.rmatch rres
      c3_out.rmatch.entries :=
  C3_apply_replay.2.1 c3_ruleB c3_model c3_out (by decide)

end TTPTools
